import Mathlib

/-!
# Choukai spatial core: shallow embedding and verification

A shallow embedding of the Choukai grid/world library (`Position.ts`,
`Map.ts`, the `World` variant with unit tracking, and the stateless
spatial utilities), together with theorems settling the frozen claims.

Modelling conventions:
* JavaScript `number` is modelled as `Int` (the library is used with
  integer grid coordinates; decimal terrain costs are modelled as `ℚ`).
  `NaN` arising from `parseFloat`/`Number` on non-numeric text is
  modelled as `none` in `JNum := Option Int`.
* JavaScript objects mutated in place are modelled by explicit state
  passing; each mutator returns the new value together with its boolean
  result.
* A JS `Map<string, V>` is modelled as an association list in insertion
  order with unique keys (`set` overwrites the first matching entry in
  place, `delete` removes it).
* Truthiness tests from the source are modelled exactly: the occupant
  check `if (cell.occupiedBy)` is false for the empty string, and
  `properties.movementBlocked` is truthy only when present and `true`.
-/

/-! ## Small JS-flavoured list primitives -/

/-- Indexing `l[i]` with a JS-style (possibly negative) integer index:
out-of-range and negative indices give `undefined` (`none`). -/
def jsIndex {α : Type} (l : List α) (i : Int) : Option α :=
  if 0 ≤ i then l.get? i.toNat else none

/-- Replace the element at index `n` by `f` of it; out of range is a no-op. -/
def listModify {α : Type} : List α → Nat → (α → α) → List α
  | [], _, _ => []
  | a :: l, 0, f => f a :: l
  | a :: l, n + 1, f => a :: listModify l n f

/-- Truthiness of an optional string (JS `if (s)`): `none` and the empty
string are falsy. -/
def strTruthy : Option String → Bool
  | none => false
  | some s => s ≠ ""

/-- `String.split(sep)` at the character-list level: always returns at
least one (possibly empty) component. -/
def splitOnChar (sep : Char) : List Char → List (List Char)
  | [] => [[]]
  | c :: rest =>
    if c = sep then [] :: splitOnChar sep rest
    else
      match splitOnChar sep rest with
      | [] => [[c]]
      | g :: gs => (c :: g) :: gs

/-- `String.prototype.trim` at the character-list level. -/
def trimChars (l : List Char) : List Char :=
  ((l.dropWhile Char.isWhitespace).reverse.dropWhile Char.isWhitespace).reverse

/-- The decimal digit character for `d < 10` (yields `'9'` past the range,
which never occurs in use). -/
def digitChar10 (d : Nat) : Char :=
  match d with
  | 0 => '0' | 1 => '1' | 2 => '2' | 3 => '3' | 4 => '4'
  | 5 => '5' | 6 => '6' | 7 => '7' | 8 => '8' | _ => '9'

/-- Decimal rendering of a natural number, as JS renders integral numbers
in template strings. -/
def natToChars (n : Nat) : List Char :=
  if h : n < 10 then [digitChar10 n]
  else natToChars (n / 10) ++ [digitChar10 (n % 10)]
decreasing_by exact Nat.div_lt_self (by omega) (by omega)

/-- Decimal rendering of an integer, as JS renders integral numbers. -/
def intToChars (i : Int) : List Char :=
  if i < 0 then '-' :: natToChars (-i).toNat else natToChars i.toNat

/-- Numeric value of a decimal digit character. -/
def charToDigit (c : Char) : Nat := c.toNat - 48

/-- Value of a string of decimal digits. -/
def digitsToNat (ds : List Char) : Nat :=
  ds.foldl (fun acc c => 10 * acc + charToDigit c) 0

/-- A JS number that may be `NaN`: `none` models `NaN`. -/
abbrev JNum := Option Int

/-- `parseFloat` restricted to the integer-literal fragment used by this
library: skips nothing (callers trim), accepts an optional sign followed
by a longest digit prefix, ignores any trailing text, and yields `NaN`
(`none`) when no digits lead the string. -/
def parseFloatJS (l : List Char) : JNum :=
  match l with
  | [] => none
  | c :: rest =>
    if c = '-' then
      let ds := rest.takeWhile Char.isDigit
      if ds = [] then none else some (-(digitsToNat ds : Int))
    else if c = '+' then
      let ds := rest.takeWhile Char.isDigit
      if ds = [] then none else some (digitsToNat ds : Int)
    else
      let ds := (c :: rest).takeWhile Char.isDigit
      if ds = [] then none else some (digitsToNat ds : Int)

/-- `Number(s)` on the integer-literal fragment: trims, maps the empty
string to `0`, requires the whole remainder to be a signed digit string,
and yields `NaN` (`none`) otherwise. -/
def jsNumber (l : List Char) : JNum :=
  match trimChars l with
  | [] => some 0
  | c :: rest =>
    if c = '-' then
      if rest ≠ [] ∧ rest.all Char.isDigit then some (-(digitsToNat rest : Int))
      else none
    else if c = '+' then
      if rest ≠ [] ∧ rest.all Char.isDigit then some (digitsToNat rest : Int)
      else none
    else
      if (c :: rest).all Char.isDigit then some (digitsToNat (c :: rest) : Int)
      else none

/-! ## Position (`src/core/Position.ts`) -/

/-- The Position value type: 2D or (when `z` is present) 3D coordinates. -/
structure Position where
  x : Int
  y : Int
  z : Option Int := none
deriving DecidableEq

/-- `Position.prototype.toString`: `"(x, y)"` or `"(x, y, z)"`. -/
def Position.toStr (p : Position) : String :=
  match p.z with
  | none =>
    String.mk ('(' :: intToChars p.x ++ ',' :: ' ' :: intToChars p.y ++ [')'])
  | some zv =>
    String.mk ('(' :: intToChars p.x ++ ',' :: ' ' :: intToChars p.y ++
      ',' :: ' ' :: intToChars zv ++ [')'])

/-- The result of parsing a position string: components may be `NaN`. -/
structure JSPos where
  x : JNum
  y : JNum
  z : Option JNum := none
deriving DecidableEq

/-- Strip every `(` and `)` character (`replace(/[()]/g, '')`). -/
def removeParens (l : List Char) : List Char :=
  l.filter (fun c => ¬(c = '(' ∨ c = ')'))

/-- The comma-separated components of a position string after paren
stripping; `fromString` errors exactly when there are not 2 or 3 of them. -/
def componentCount (s : String) : Nat :=
  (splitOnChar ',' (removeParens s.data)).length

/-- `Position.fromString`: strip parens, split on `','`, trim and
`parseFloat` each component, and build a position from exactly 2 or 3
components; otherwise fail. Numericity is not checked: non-numeric
components yield `NaN` coordinates. -/
def Position.fromString (s : String) : Except String JSPos :=
  let coords := (splitOnChar ',' (removeParens s.data)).map
    (fun comp => parseFloatJS (trimChars comp))
  match coords with
  | [a, b] => Except.ok ⟨a, b, none⟩
  | [a, b, c] => Except.ok ⟨a, b, some c⟩
  | _ => Except.error ("Invalid position string: " ++ s)

/-- Strict equality `===` between possibly-NaN numbers: `NaN` compares
unequal to everything, including itself. -/
def jnumEq : JNum → JNum → Bool
  | some a, some b => a == b
  | _, _ => false

/-- Strict equality `===` between optional numbers (`undefined === undefined`
is true; `NaN` never equals). -/
def optJNumEq : Option JNum → Option JNum → Bool
  | none, none => true
  | some a, some b => jnumEq a b
  | _, _ => false

/-- `Position.prototype.equals` on parse results: fieldwise `===`
including the `z` field. -/
def JSPos.equals (p q : JSPos) : Bool :=
  jnumEq p.x q.x && jnumEq p.y q.y && optJNumEq p.z q.z

/-- View a (non-NaN) position as a parse result. -/
def Position.toJS (p : Position) : JSPos :=
  ⟨some p.x, some p.y, p.z.map some⟩

/-! ## Map (`src/core/Map.ts`) -/

/-- `ITerrainProperties` with the keys the implementation uses. -/
structure TerrainProps where
  movementCost : ℚ
  defenseBonus : Option ℚ := none
  visibilityModifier : Option ℚ := none
  movementBlocked : Option Bool := none
deriving DecidableEq

/-- Caller-supplied terrain-property overrides: every field optional. -/
structure TerrainPropsOverride where
  movementCost : Option ℚ := none
  defenseBonus : Option ℚ := none
  visibilityModifier : Option ℚ := none
  movementBlocked : Option Bool := none
deriving DecidableEq

/-- `Object.assign(target, overrides)`: a field present in the override
replaces the target's field. -/
def objectAssign (t : TerrainProps) (s : TerrainPropsOverride) : TerrainProps :=
  { movementCost := s.movementCost.getD t.movementCost
    defenseBonus := Option.or s.defenseBonus t.defenseBonus
    visibilityModifier := Option.or s.visibilityModifier t.visibilityModifier
    movementBlocked := Option.or s.movementBlocked t.movementBlocked }

/-- One grid cell (`IMapCell`). -/
structure MapCell where
  terrain : String
  properties : TerrainProps
  occupiedBy : Option String := none
deriving DecidableEq

/-- Effective map configuration after the constructor merges defaults. -/
structure MapConfig where
  wrapEdges : Bool
  defaultTerrain : String
  defaultMovementCost : ℚ
deriving DecidableEq

/-- The optional `IMapConfig` argument of the constructor. -/
structure MapConfigArg where
  wrapEdges : Option Bool := none
  defaultTerrain : Option String := none
  defaultMovementCost : Option ℚ := none
deriving DecidableEq

/-- `{wrapEdges: false, defaultTerrain: 'grass', defaultMovementCost: 1.0,
...config}`. -/
def mkMapConfig (cfg : MapConfigArg) : MapConfig :=
  ⟨cfg.wrapEdges.getD false, cfg.defaultTerrain.getD "grass",
   cfg.defaultMovementCost.getD 1⟩

/-- `createDefaultCell`: note the `||` fallbacks, so a configured empty
terrain string or zero cost falls back to `'grass'` / `1.0`. -/
def createDefaultCell (config : MapConfig) : MapCell :=
  { terrain := if config.defaultTerrain = "" then "grass" else config.defaultTerrain
    properties :=
      { movementCost := if config.defaultMovementCost = 0 then 1
                        else config.defaultMovementCost }
    occupiedBy := none }

/-- The Map class state. -/
structure GameMap where
  width : Int
  height : Int
  name : String
  config : MapConfig
  cells : List (List MapCell)
deriving DecidableEq

/-- The Map constructor: no dimension validation; builds `height` rows of
`width` default cells (none for non-positive dimensions). -/
def mkMap (width height : Int) (name : String) (cfg : MapConfigArg) : GameMap :=
  let config := mkMapConfig cfg
  ⟨width, height, name, config,
   List.replicate height.toNat (List.replicate width.toNat (createDefaultCell config))⟩

/-- `isValidCoordinate`: always true with wrapping, else a bounds check. -/
def GameMap.isValidCoordinate (m : GameMap) (x y : Int) : Bool :=
  if m.config.wrapEdges then true
  else decide (0 ≤ x) && decide (x < m.width) && decide (0 ≤ y) && decide (y < m.height)

/-- `getWrappedCoordinate`: `((c % max) + max) % max` with JS truncating
`%` when wrapping, else the coordinate unchanged. -/
def wrapCoord (wrap : Bool) (c mx : Int) : Int :=
  if wrap then ((c.tmod mx) + mx).tmod mx else c

/-- The effective column index used for cell access. -/
def GameMap.wrapX (m : GameMap) (x : Int) : Int :=
  wrapCoord m.config.wrapEdges x m.width

/-- The effective row index used for cell access. -/
def GameMap.wrapY (m : GameMap) (y : Int) : Int :=
  wrapCoord m.config.wrapEdges y m.height

/-- `this.cells[wy]?.[wx] || null` (cell objects are truthy). -/
def cellsAt (cells : List (List MapCell)) (wx wy : Int) : Option MapCell :=
  match jsIndex cells wy with
  | none => none
  | some row => jsIndex row wx

/-- In-place update of `cells[wy][wx]`; indices out of range (never taken
by the callers, which look the cell up first) leave the grid unchanged. -/
def cellsModify (cells : List (List MapCell)) (wx wy : Int)
    (f : MapCell → MapCell) : List (List MapCell) :=
  if 0 ≤ wx ∧ 0 ≤ wy then
    listModify cells wy.toNat (fun row => listModify row wx.toNat f)
  else cells

/-- `getCell`: null when the coordinate is invalid, else the resolved cell. -/
def GameMap.getCell (m : GameMap) (x y : Int) : Option MapCell :=
  if m.isValidCoordinate x y then cellsAt m.cells (m.wrapX x) (m.wrapY y)
  else none

/-- Update the resolved cell of the grid in place. -/
def GameMap.modifyCell (m : GameMap) (x y : Int) (f : MapCell → MapCell) : GameMap :=
  { m with cells := cellsModify m.cells (m.wrapX x) (m.wrapY y) f }

/-- The per-kind default properties table, falling back to grass for
unknown kinds (`defaults[terrainType] || defaults['grass']`, spread over
`{movementCost: 1.0}`). -/
def getDefaultTerrainProperties (t : String) : TerrainProps :=
  if t = "grass" then { movementCost := 1 }
  else if t = "water" then { movementCost := 2, movementBlocked := some true }
  else if t = "mountain" then { movementCost := 3 }
  else if t = "forest" then { movementCost := 3/2, visibilityModifier := some (7/10) }
  else if t = "desert" then { movementCost := 6/5 }
  else if t = "road" then { movementCost := 4/5 }
  else if t = "plains" then { movementCost := 1 }
  else if t = "swamp" then { movementCost := 5/2 }
  else if t = "snow" then { movementCost := 13/10 }
  else if t = "sand" then { movementCost := 7/5 }
  else { movementCost := 1 }

/-- `setTerrain`: false when out of bounds; otherwise replace the cell's
terrain and properties (defaults merged with overrides), keeping the
occupant. -/
def GameMap.setTerrain (m : GameMap) (x y : Int) (t : String)
    (props : Option TerrainPropsOverride) : GameMap × Bool :=
  if ¬(m.isValidCoordinate x y) then (m, false)
  else
    let terrainProps :=
      match props with
      | some p => objectAssign (getDefaultTerrainProperties t) p
      | none => getDefaultTerrainProperties t
    match cellsAt m.cells (m.wrapX x) (m.wrapY y) with
    | some _ =>
      (m.modifyCell x y (fun c => { c with terrain := t, properties := terrainProps }),
       true)
    | none => (m, false)

/-- `canPlaceUnitAt`: cell exists, terrain not blocking, no (truthy)
occupant. -/
def GameMap.canPlaceUnitAt (m : GameMap) (x y : Int) : Bool :=
  match m.getCell x y with
  | none => false
  | some c => !(c.properties.movementBlocked.getD false) && !(strTruthy c.occupiedBy)

/-- `placeUnit`: requires `canPlaceUnitAt`; sets the occupant in place. -/
def GameMap.placeUnit (m : GameMap) (id : String) (x y : Int) : GameMap × Bool :=
  if ¬(m.canPlaceUnitAt x y) then (m, false)
  else
    match cellsAt m.cells (m.wrapX x) (m.wrapY y) with
    | none => (m, false)
    | some _ => (m.modifyCell x y (fun c => { c with occupiedBy := some id }), true)

/-- `removeUnit(x, y)` (map level): clears the occupant when a cell
resolves there; returns whether one did. -/
def GameMap.removeUnitAt (m : GameMap) (x y : Int) : GameMap × Bool :=
  match m.getCell x y with
  | none => (m, false)
  | some _ => (m.modifyCell x y (fun c => { c with occupiedBy := none }), true)

/-- `getUnitAt`. -/
def GameMap.getUnitAt (m : GameMap) (x y : Int) : Option String :=
  match m.getCell x y with
  | none => none
  | some c => c.occupiedBy

/-- `getMovementCost`: `props.movementCost || 1.0`, `Infinity` (modelled
as `none`) when no cell resolves. -/
def GameMap.getMovementCost (m : GameMap) (x y : Int) : Option ℚ :=
  match m.getCell x y with
  | none => none
  | some c =>
    some (if c.properties.movementCost = 0 then 1 else c.properties.movementCost)

/-! ## World (the unit-tracking `World` variant) -/

/-- A tracked unit position: `{mapId, position}`. -/
structure UnitPos where
  mapId : String
  position : Position
deriving DecidableEq

/-- The World state: the owned maps (insertion order) and the tracked
unit positions (a JS `Map<string, {mapId, position}>` as an association
list in insertion order). -/
structure World where
  maps : List GameMap
  unitPositions : List (String × UnitPos)
deriving DecidableEq

/-- `new World()`. -/
def World.empty : World := ⟨[], []⟩

/-- `maps.find(m => m.name === name)`. -/
def findMap (maps : List GameMap) (n : String) : Option GameMap :=
  maps.find? (fun m => m.name = n)

/-- `unitPositions.get(id)`. -/
def upLookup (l : List (String × UnitPos)) (id : String) : Option UnitPos :=
  match l.find? (fun e => e.1 = id) with
  | none => none
  | some e => some e.2

/-- `unitPositions.set(id, v)`: overwrite the existing entry in place,
else append. -/
def upSet (l : List (String × UnitPos)) (id : String) (v : UnitPos) :
    List (String × UnitPos) :=
  match l with
  | [] => [(id, v)]
  | e :: rest => if e.1 = id then (id, v) :: rest else e :: upSet rest id v

/-- `unitPositions.delete(id)`: drop the (first) entry with that key. -/
def upDelete (l : List (String × UnitPos)) (id : String) :
    List (String × UnitPos) :=
  match l with
  | [] => []
  | e :: rest => if e.1 = id then rest else e :: upDelete rest id

/-- Remove the first map with the given name (`findIndex` + `splice`). -/
def eraseMap (maps : List GameMap) (n : String) : List GameMap :=
  match maps with
  | [] => []
  | m :: rest => if m.name = n then rest else m :: eraseMap rest n

/-- Mutate the first map with the given name in place. -/
def mapsUpdate (maps : List GameMap) (n : String) (f : GameMap → GameMap) :
    List GameMap :=
  match maps with
  | [] => []
  | m :: rest => if m.name = n then f m :: rest else m :: mapsUpdate rest n f

/-- `addMap`: reject duplicate names, else adopt. -/
def World.addMap (w : World) (m : GameMap) : World × Bool :=
  if w.maps.any (fun m2 => m2.name = m.name) then (w, false)
  else ({ w with maps := w.maps ++ [m] }, true)

/-- `getMap` (undefined-returning variant). -/
def World.getMap (w : World) (n : String) : Option GameMap :=
  findMap w.maps n

/-- `removeMap`: false when absent; else purge every tracked entry whose
`mapId` equals the name, then splice the map out. -/
def World.removeMap (w : World) (n : String) : World × Bool :=
  match findMap w.maps n with
  | none => (w, false)
  | some _ =>
    ({ maps := eraseMap w.maps n
       unitPositions := w.unitPositions.filter (fun e => e.2.mapId ≠ n) }, true)

/-- `getUnitPosition`. -/
def World.getUnitPosition (w : World) (id : String) : Option UnitPos :=
  upLookup w.unitPositions id

/-- Vacate the tracked unit's current cell, tolerating a missing map
(the shared prelude of `setUnitPosition` and `removeUnit`). -/
def vacateCurrent (w : World) (cur : UnitPos) : World :=
  match findMap w.maps cur.mapId with
  | some _ =>
    let maps' := mapsUpdate w.maps cur.mapId
      (fun m => (m.removeUnitAt cur.position.x cur.position.y).1)
    { w with maps := maps' }
  | none => w

/-- `setUnitPosition(id, mapId, position)`. -/
def World.setUnitPosition (w : World) (id mapId : String) (pos : Position) :
    World × Bool :=
  match findMap w.maps mapId with
  | none => (w, false)
  | some map =>
    if ¬(map.canPlaceUnitAt pos.x pos.y) then (w, false)
    else
      let w1 :=
        match upLookup w.unitPositions id with
        | some cur => vacateCurrent w cur
        | none => w
      match findMap w1.maps mapId with
      | none => (w1, false)
      | some map1 =>
        let pr := map1.placeUnit id pos.x pos.y
        if ¬pr.2 then (w1, false)
        else
          ({ maps := mapsUpdate w1.maps mapId (fun _ => pr.1)
             unitPositions := upSet w1.unitPositions id ⟨mapId, pos⟩ }, true)

/-- `removeUnit(id)` (world level). -/
def World.removeUnit (w : World) (id : String) : World × Bool :=
  match upLookup w.unitPositions id with
  | none => (w, false)
  | some cur =>
    let w1 := vacateCurrent w cur
    ({ w1 with unitPositions := upDelete w1.unitPositions id }, true)

/-- `moveUnit(id, newX, newY)`: same-map move with put-back on placement
failure. -/
def World.moveUnit (w : World) (id : String) (newX newY : Int) : World × Bool :=
  match upLookup w.unitPositions id with
  | none => (w, false)
  | some cur =>
    match findMap w.maps cur.mapId with
    | none => (w, false)
    | some map =>
      if ¬(map.canPlaceUnitAt newX newY) then (w, false)
      else
        let m1 := (map.removeUnitAt cur.position.x cur.position.y).1
        let pr := m1.placeUnit id newX newY
        if ¬pr.2 then
          let m2 := (m1.placeUnit id cur.position.x cur.position.y).1
          ({ w with maps := mapsUpdate w.maps cur.mapId (fun _ => m2) }, false)
        else
          ({ maps := mapsUpdate w.maps cur.mapId (fun _ => pr.1)
             unitPositions := upSet w.unitPositions id
               ⟨cur.mapId, ⟨newX, newY, cur.position.z⟩⟩ }, true)

/-- `moveUnitToMap(id, newMapId, newX, newY)`: cross-map move; the old
cell is vacated (tolerating a missing old map) and on placement failure
the unit is put back. -/
def World.moveUnitToMap (w : World) (id newMapId : String) (newX newY : Int) :
    World × Bool :=
  match upLookup w.unitPositions id with
  | none => (w, false)
  | some cur =>
    match findMap w.maps newMapId with
    | none => (w, false)
    | some newMap =>
      if ¬(newMap.canPlaceUnitAt newX newY) then (w, false)
      else
        let w1 := vacateCurrent w cur
        match findMap w1.maps newMapId with
        | none => (w1, false)
        | some newMap1 =>
          let pr := newMap1.placeUnit id newX newY
          if ¬pr.2 then
            let w2 :=
              match findMap w.maps cur.mapId with
              | some _ =>
                let maps' := mapsUpdate w1.maps cur.mapId
                  (fun m => (m.placeUnit id cur.position.x cur.position.y).1)
                { w1 with maps := maps' }
              | none => w1
            (w2, false)
          else
            ({ maps := mapsUpdate w1.maps newMapId (fun _ => pr.1)
               unitPositions := upSet w1.unitPositions id
                 ⟨newMapId, ⟨newX, newY, none⟩⟩ }, true)

/-- `clear()`. -/
def World.clearAll (_w : World) : World := ⟨[], []⟩

/-! ## World mutator sequences -/

/-- One call of a World mutator, for stating reachable-state invariants. -/
inductive WOp where
  | addMap (m : GameMap)
  | removeMap (n : String)
  | setUnitPosition (id mapId : String) (pos : Position)
  | removeUnit (id : String)
  | moveUnit (id : String) (x y : Int)
  | moveUnitToMap (id mapId : String) (x y : Int)
  | clear

/-- Apply one mutator, discarding its boolean result. -/
def applyOp (w : World) : WOp → World
  | WOp.addMap m => (w.addMap m).1
  | WOp.removeMap n => (w.removeMap n).1
  | WOp.setUnitPosition id mapId pos => (w.setUnitPosition id mapId pos).1
  | WOp.removeUnit id => (w.removeUnit id).1
  | WOp.moveUnit id x y => (w.moveUnit id x y).1
  | WOp.moveUnitToMap id mapId x y => (w.moveUnitToMap id mapId x y).1
  | WOp.clear => w.clearAll

/-- Run a sequence of mutator calls. -/
def runOps (w : World) (ops : List WOp) : World :=
  ops.foldl applyOp w

/-- The id a mutator would newly insert into the tracking table, if any. -/
def opSetId : WOp → Option String
  | WOp.setUnitPosition id _ _ => some id
  | _ => none

/-- The consistency invariant: every tracked entity's map exists and the
cell resolved at its tracked position carries it as occupant. -/
def TrackedOk (w : World) (e : String × UnitPos) : Prop :=
  ∃ m, findMap w.maps e.2.mapId = some m ∧
    ∃ c, m.getCell e.2.position.x e.2.position.y = some c ∧
      c.occupiedBy = some e.1

/-- All tracked entries are consistent with the grids. -/
def Consistent (w : World) : Prop :=
  ∀ e ∈ w.unitPositions, TrackedOk w e

/-! ## Stateless spatial utilities (`findCollisions`) -/

/-- A caller-supplied unit-position record (`IUnitPosition`). -/
structure UnitPosition where
  unitId : String
  mapId : String
  position : Position
deriving DecidableEq

/-- The grouping key `` `${mapId}:${x},${y}` ``. -/
def collisionKey (r : UnitPosition) : List Char :=
  r.mapId.data ++ ':' :: (intToChars r.position.x ++ ',' :: intToChars r.position.y)

/-- Append a record to its key's group, first occurrence creating the
group at the end (JS object insertion order). -/
def insertSeen (acc : List (List Char × List UnitPosition)) (r : UnitPosition) :
    List (List Char × List UnitPosition) :=
  match acc with
  | [] => [(collisionKey r, [r])]
  | (k, l) :: rest =>
    if k = collisionKey r then (k, l ++ [r]) :: rest
    else (k, l) :: insertSeen rest r

/-- The `seen` table of `findCollisions`. -/
def buildSeen (ps : List UnitPosition) : List (List Char × List UnitPosition) :=
  ps.foldl insertSeen []

/-- One reported collision group; coordinates are `Number(...)` results
and may be `NaN`. -/
structure CollisionGroup where
  mapId : String
  x : JNum
  y : JNum
  positions : List UnitPosition
deriving DecidableEq

/-- Decode one `seen` entry into a reported group, mirroring the key
re-parsing of the source (split on `':'`, take the first two parts, split
the second on `','`): groups whose key does not decode are dropped. -/
def decodeSeenEntry (e : List Char × List UnitPosition) : Option CollisionGroup :=
  if e.2.length ≤ 1 then none
  else
    match splitOnChar ':' e.1 with
    | p0 :: p1 :: _ =>
      match splitOnChar ',' p1 with
      | xStr :: yStr :: _ =>
        some ⟨String.mk p0, jsNumber xStr, jsNumber yStr, e.2⟩
      | _ => none
    | _ => none

/-- `findCollisions`. -/
def findCollisions (ps : List UnitPosition) : List CollisionGroup :=
  (buildSeen ps).filterMap decodeSeenEntry

/-! ## Auxiliary definitions used by the theorems -/

instance {ε α : Type} [DecidableEq ε] [DecidableEq α] : DecidableEq (Except ε α)
  | Except.ok a, Except.ok b =>
    if h : a = b then isTrue (by rw [h]) else isFalse (fun hc => h (Except.ok.inj hc))
  | Except.error a, Except.error b =>
    if h : a = b then isTrue (by rw [h]) else isFalse (fun hc => h (Except.error.inj hc))
  | Except.ok _, Except.error _ => isFalse (fun hc => Except.noConfusion hc)
  | Except.error _, Except.ok _ => isFalse (fun hc => Except.noConfusion hc)

/-- Shape invariant of a map's grid: `height` rows of `width` cells
(established by the constructor, preserved by every cell mutator). -/
def MapWF (m : GameMap) : Prop :=
  m.cells.length = m.height.toNat ∧ ∀ row ∈ m.cells, row.length = m.width.toNat

/-- The terrain kinds with an entry in the defaults table. -/
def knownTerrains : List String :=
  ["grass", "water", "mountain", "forest", "desert", "road", "plains",
   "swamp", "snow", "sand"]

/-- Set a cell's occupant. -/
def setOcc (id : String) (c : MapCell) : MapCell := { c with occupiedBy := some id }

/-- Clear a cell's occupant. -/
def clearOcc (c : MapCell) : MapCell := { c with occupiedBy := none }

/-- The keys of the tracking table. -/
def upKeys (l : List (String × UnitPos)) : List String := l.map Prod.fst

/-- The whole-world well-formedness used to establish the reachable-state
invariant: unique tracking keys, unique map names, no empty tracked id,
and grid consistency. -/
def WInv (w : World) : Prop :=
  (upKeys w.unitPositions).Nodup ∧
  (w.maps.map GameMap.name).Nodup ∧
  (∀ e ∈ w.unitPositions, e.1 ≠ "") ∧
  Consistent w

/-- Lookup in the `seen` table of `findCollisions`. -/
def seenLookup (acc : List (List Char × List UnitPosition)) (k : List Char) :
    Option (List UnitPosition) :=
  (acc.find? (fun e => e.1 = k)).map Prod.snd

/-- The coordinate triple reported by a collision group. -/
def tripleOf (g : CollisionGroup) : String × JNum × JNum := (g.mapId, g.x, g.y)

/-- Does a record sit at exactly this map and coordinate? -/
def atCoord (m : String) (x y : Int) (r : UnitPosition) : Bool :=
  r.mapId = m && r.position.x = x && r.position.y = y

/-- Did a fallible call succeed? -/
def exceptIsOk {ε α : Type} : Except ε α → Bool
  | Except.ok _ => true
  | Except.error _ => false

/-- The grouping key reconstructible from a reported group's coordinate
triple (defined exactly when neither coordinate is `NaN`). -/
def keyRec (g : CollisionGroup) : Option (List Char) :=
  match g.x, g.y with
  | some xv, some yv =>
    some (g.mapId.data ++ ':' :: (intToChars xv ++ ',' :: intToChars yv))
  | _, _ => none

/-! ## Primitive lemmas -/

theorem listModify_get? {α : Type} (l : List α) (n : Nat) (f : α → α) (k : Nat) :
    (listModify l n f).get? k = if k = n then (l.get? n).map f else l.get? k := by
  induction l generalizing n k with
  | nil => simp [listModify]
  | cons a t ih =>
    cases n with
    | zero =>
      cases k with
      | zero => simp [listModify]
      | succ k => simp [listModify]
    | succ n =>
      cases k with
      | zero => simp [listModify]
      | succ k =>
        simp only [listModify, List.get?]
        rw [ih]
        by_cases h : k = n <;> simp [h]

theorem listModify_length {α : Type} (l : List α) (n : Nat) (f : α → α) :
    (listModify l n f).length = l.length := by
  induction l generalizing n with
  | nil => simp [listModify]
  | cons a t ih =>
    cases n with
    | zero => simp [listModify]
    | succ n => simp [listModify, ih]

theorem get?_replicate {α : Type} (a : α) (n k : Nat) :
    (List.replicate n a).get? k = if k < n then some a else none := by
  induction n generalizing k with
  | zero => simp
  | succ n ih =>
    cases k with
    | zero => simp [List.replicate_succ, List.get?]
    | succ k =>
      rw [List.replicate_succ]
      show (List.replicate n a).get? k = _
      rw [ih]
      simp [Nat.succ_lt_succ_iff]

theorem takeWhile_all {α : Type} (p : α → Bool) (l : List α)
    (h : ∀ c ∈ l, p c = true) : l.takeWhile p = l := by
  rw [List.takeWhile_eq_self_iff]
  exact h

theorem dropWhile_none {α : Type} (p : α → Bool) (l : List α)
    (h : ∀ c ∈ l, p c = false) : l.dropWhile p = l := by
  cases l with
  | nil => rfl
  | cons a t =>
    rw [List.dropWhile_cons_of_neg]
    simp [h a (by simp)]

theorem trimChars_id (l : List Char)
    (h : ∀ c ∈ l, c.isWhitespace = false) : trimChars l = l := by
  unfold trimChars
  rw [dropWhile_none _ _ h, dropWhile_none, List.reverse_reverse]
  intro c hc
  exact h c (by simpa using hc)

theorem trimChars_space (l : List Char)
    (h : ∀ c ∈ l, c.isWhitespace = false) : trimChars (' ' :: l) = l := by
  unfold trimChars
  rw [List.dropWhile_cons_of_pos (by decide), dropWhile_none _ _ h, dropWhile_none,
    List.reverse_reverse]
  intro c hc
  exact h c (by simpa using hc)

theorem splitOnChar_nosep (sep : Char) (l : List Char)
    (h : ∀ c ∈ l, c ≠ sep) : splitOnChar sep l = [l] := by
  induction l with
  | nil => rfl
  | cons c t ih =>
    have hc : ¬(c = sep) := h c (by simp)
    simp only [splitOnChar, if_neg hc]
    rw [ih (fun d hd => h d (by simp [hd]))]

theorem splitOnChar_append (sep : Char) (a b : List Char)
    (h : ∀ c ∈ a, c ≠ sep) :
    splitOnChar sep (a ++ sep :: b) = a :: splitOnChar sep b := by
  induction a with
  | nil => simp [splitOnChar]
  | cons c t ih =>
    have hc : ¬(c = sep) := h c (by simp)
    have ih' := ih (fun d hd => h d (by simp [hd]))
    simp only [List.cons_append, splitOnChar, if_neg hc, List.append_eq]
    rw [ih']

theorem splitOnChar_ne_nil (sep : Char) (l : List Char) :
    splitOnChar sep l ≠ [] := by
  cases l with
  | nil => simp [splitOnChar]
  | cons c t =>
    simp only [splitOnChar]
    by_cases h : c = sep
    · simp [h]
    · simp only [if_neg h]
      cases hs : splitOnChar sep t <;> simp

theorem digitChar10_isDigit (d : Nat) : (digitChar10 d).isDigit = true := by
  unfold digitChar10
  split <;> decide

theorem charToDigit_digitChar10 (d : Nat) (h : d < 10) :
    charToDigit (digitChar10 d) = d := by
  revert h
  revert d
  decide

theorem digitsToNat_append (a : List Char) (c : Char) :
    digitsToNat (a ++ [c]) = 10 * digitsToNat a + charToDigit c := by
  unfold digitsToNat
  rw [List.foldl_append]
  rfl

theorem natToChars_ne_nil (n : Nat) : natToChars n ≠ [] := by
  rw [natToChars]
  split
  · simp
  · simp

theorem natToChars_digits (n : Nat) : ∀ c ∈ natToChars n, c.isDigit = true := by
  induction n using Nat.strong_induction_on with
  | _ n ih =>
    rw [natToChars]
    split
    · intro c hc
      rw [List.mem_singleton] at hc
      rw [hc]
      exact digitChar10_isDigit n
    · intro c hc
      rw [List.mem_append] at hc
      rcases hc with hc | hc
      · exact ih (n / 10) (Nat.div_lt_self (by omega) (by omega)) c hc
      · rw [List.mem_singleton] at hc
        rw [hc]
        exact digitChar10_isDigit (n % 10)

theorem digitsToNat_natToChars (n : Nat) : digitsToNat (natToChars n) = n := by
  induction n using Nat.strong_induction_on with
  | _ n ih =>
    rw [natToChars]
    split
    · next h =>
      show digitsToNat [digitChar10 n] = n
      unfold digitsToNat
      simp [charToDigit_digitChar10 n h]
    · next h =>
      rw [digitsToNat_append, ih (n / 10) (Nat.div_lt_self (by omega) (by omega)),
        charToDigit_digitChar10 (n % 10) (Nat.mod_lt n (by omega))]
      omega

theorem isDigit_not_special (c : Char) (h : c.isDigit = true) :
    c ≠ '(' ∧ c ≠ ')' ∧ c ≠ ',' ∧ c ≠ ':' ∧ c ≠ '-' ∧ c ≠ '+' ∧
      c.isWhitespace = false := by
  refine ⟨?_, ?_, ?_, ?_, ?_, ?_, ?_⟩ <;>
    first
      | (intro hc; rw [hc] at h; exact absurd h (by decide))
      | (unfold Char.isDigit at h
         unfold Char.isWhitespace
         revert h
         by_cases h1 : c = ' '
         · rw [h1]; decide
         · by_cases h2 : c = '\t'
           · rw [h2]; decide
           · by_cases h3 : c = '\n'
             · rw [h3]; decide
             · by_cases h4 : c = '\r'
               · rw [h4]; decide
               · simp [h1, h2, h3, h4])

theorem intToChars_digits (i : Int) :
    ∀ c ∈ intToChars i, c.isDigit = true ∨ c = '-' := by
  unfold intToChars
  split
  · intro c hc
    rw [List.mem_cons] at hc
    rcases hc with hc | hc
    · exact Or.inr hc
    · exact Or.inl (natToChars_digits _ c hc)
  · intro c hc
    exact Or.inl (natToChars_digits _ c hc)

theorem intToChars_not_special (i : Int) :
    ∀ c ∈ intToChars i, c ≠ '(' ∧ c ≠ ')' ∧ c ≠ ',' ∧ c ≠ ':' ∧
      c.isWhitespace = false := by
  intro c hc
  rcases intToChars_digits i c hc with h | h
  · obtain ⟨h1, h2, h3, h4, _, _, h7⟩ := isDigit_not_special c h
    exact ⟨h1, h2, h3, h4, h7⟩
  · rw [h]
    refine ⟨by decide, by decide, by decide, by decide, by decide⟩

theorem parseFloatJS_natToChars (n : Nat) :
    parseFloatJS (natToChars n) = some (n : Int) := by
  have hne := natToChars_ne_nil n
  have hdig := natToChars_digits n
  cases hl : natToChars n with
  | nil => exact absurd hl hne
  | cons c rest =>
    have hcdig : c.isDigit = true := by
      rw [hl] at hdig
      exact hdig c (by simp)
    obtain ⟨_, _, _, _, h5, h6, _⟩ := isDigit_not_special c hcdig
    simp only [parseFloatJS]
    rw [if_neg h5, if_neg h6]
    have htake : (c :: rest).takeWhile Char.isDigit = c :: rest := by
      apply takeWhile_all
      rw [← hl]
      exact hdig
    simp only [htake]
    rw [if_neg (by simp)]
    rw [← hl, digitsToNat_natToChars]

theorem parseFloatJS_intToChars (i : Int) :
    parseFloatJS (intToChars i) = some i := by
  unfold intToChars
  split
  · next h =>
    have hne := natToChars_ne_nil (-i).toNat
    have hdig := natToChars_digits (-i).toNat
    simp only [parseFloatJS]
    rw [if_pos trivial]
    have htake : (natToChars (-i).toNat).takeWhile Char.isDigit = natToChars (-i).toNat :=
      takeWhile_all _ _ hdig
    simp only [htake]
    rw [if_neg hne, digitsToNat_natToChars,
      Int.toNat_of_nonneg (by omega : (0:Int) ≤ -i), neg_neg]
  · next h =>
    rw [parseFloatJS_natToChars]
    congr 1
    omega

theorem jsNumber_intToChars (i : Int) : jsNumber (intToChars i) = some i := by
  have htrim : trimChars (intToChars i) = intToChars i :=
    trimChars_id _ (fun c hc => (intToChars_not_special i c hc).2.2.2.2)
  by_cases hi : i < 0
  · have hrep : intToChars i = '-' :: natToChars (-i).toNat := by
      unfold intToChars
      rw [if_pos hi]
    have hne := natToChars_ne_nil (-i).toNat
    have hdig := natToChars_digits (-i).toNat
    rw [hrep] at htrim
    simp only [jsNumber, hrep, htrim]
    rw [if_pos trivial]
    rw [if_pos ⟨hne, by rw [List.all_eq_true]; exact hdig⟩, digitsToNat_natToChars,
      Int.toNat_of_nonneg (by omega : (0:Int) ≤ -i), neg_neg]
  · have hrep : intToChars i = natToChars i.toNat := by
      unfold intToChars
      rw [if_neg hi]
    have hne := natToChars_ne_nil i.toNat
    have hdig := natToChars_digits i.toNat
    rw [hrep] at htrim
    cases hl : natToChars i.toNat with
    | nil => exact absurd hl hne
    | cons c rest =>
      rw [hl] at htrim hdig
      have hcdig : c.isDigit = true := hdig c (by simp)
      obtain ⟨_, _, _, _, h5, h6, _⟩ := isDigit_not_special c hcdig
      simp only [jsNumber, hrep, hl, htrim]
      rw [if_neg h5, if_neg h6]
      rw [if_pos (by rw [List.all_eq_true]; exact hdig)]
      rw [show c :: rest = natToChars i.toNat from hl.symm, digitsToNat_natToChars,
        Int.toNat_of_nonneg (by omega : (0:Int) ≤ i)]

theorem intToChars_inj (i j : Int) (h : intToChars i = intToChars j) : i = j := by
  have h1 := parseFloatJS_intToChars i
  have h2 := parseFloatJS_intToChars j
  rw [h] at h1
  rw [h1] at h2
  exact Option.some.inj h2

/-! ## C6 / C7: position string round-trip and parse failures -/

theorem removeParens_keep (l : List Char) (h : ∀ c ∈ l, c ≠ '(' ∧ c ≠ ')') :
    removeParens l = l := by
  unfold removeParens
  rw [List.filter_eq_self]
  intro c hc
  simp [(h c hc).1, (h c hc).2]

theorem removeParens_append (a b : List Char) :
    removeParens (a ++ b) = removeParens a ++ removeParens b := by
  unfold removeParens
  rw [List.filter_append]

theorem parse_component_direct (i : Int) :
    parseFloatJS (trimChars (intToChars i)) = some i := by
  rw [trimChars_id _ (fun c hc => (intToChars_not_special i c hc).2.2.2.2),
    parseFloatJS_intToChars]

theorem parse_component_spaced (i : Int) :
    parseFloatJS (trimChars (' ' :: intToChars i)) = some i := by
  rw [trimChars_space _ (fun c hc => (intToChars_not_special i c hc).2.2.2.2),
    parseFloatJS_intToChars]

theorem fromString_toStr_2d (x y : Int) :
    Position.fromString (Position.toStr ⟨x, y, none⟩) =
      Except.ok ⟨some x, some y, none⟩ := by
  have hx := intToChars_not_special x
  have hy := intToChars_not_special y
  unfold Position.toStr Position.fromString
  simp only []
  have hrp : removeParens ('(' :: intToChars x ++ ',' :: ' ' :: intToChars y ++ [')']) =
      intToChars x ++ ',' :: ' ' :: intToChars y := by
    have h1 : '(' :: intToChars x ++ ',' :: ' ' :: intToChars y ++ [')'] =
        ['('] ++ (intToChars x ++ ',' :: ' ' :: intToChars y) ++ [')'] := by simp
    rw [h1, removeParens_append, removeParens_append]
    rw [removeParens_keep (intToChars x ++ ',' :: ' ' :: intToChars y) ?h]
    case h =>
      intro c hc
      rcases List.mem_append.mp hc with hc | hc
      · exact ⟨(hx c hc).1, (hx c hc).2.1⟩
      · rcases List.mem_cons.mp hc with hc | hc
        · rw [hc]; exact ⟨by decide, by decide⟩
        · rcases List.mem_cons.mp hc with hc | hc
          · rw [hc]; exact ⟨by decide, by decide⟩
          · exact ⟨(hy c hc).1, (hy c hc).2.1⟩
    show removeParens ['('] ++ _ ++ removeParens [')'] = _
    rw [show removeParens ['('] = [] from rfl, show removeParens [')'] = [] from rfl]
    simp
  rw [hrp]
  have hsplit : splitOnChar ',' (intToChars x ++ ',' :: ' ' :: intToChars y) =
      [intToChars x, ' ' :: intToChars y] := by
    rw [splitOnChar_append ',' _ _ (fun c hc => (hx c hc).2.2.1)]
    rw [splitOnChar_nosep]
    intro c hc
    rcases List.mem_cons.mp hc with hc | hc
    · rw [hc]; decide
    · exact (hy c hc).2.2.1
  rw [hsplit]
  simp only [List.map]
  rw [parse_component_direct, parse_component_spaced]

theorem fromString_toStr_3d (x y z : Int) :
    Position.fromString (Position.toStr ⟨x, y, some z⟩) =
      Except.ok ⟨some x, some y, some (some z)⟩ := by
  have hx := intToChars_not_special x
  have hy := intToChars_not_special y
  have hz := intToChars_not_special z
  unfold Position.toStr Position.fromString
  simp only []
  have hrp : removeParens ('(' :: intToChars x ++ ',' :: ' ' :: intToChars y ++
      ',' :: ' ' :: intToChars z ++ [')']) =
      intToChars x ++ ',' :: ' ' :: intToChars y ++ ',' :: ' ' :: intToChars z := by
    have h1 : '(' :: intToChars x ++ ',' :: ' ' :: intToChars y ++
        ',' :: ' ' :: intToChars z ++ [')'] =
        ['('] ++ (intToChars x ++ ',' :: ' ' :: intToChars y ++
          ',' :: ' ' :: intToChars z) ++ [')'] := by simp
    rw [h1, removeParens_append, removeParens_append]
    rw [removeParens_keep (intToChars x ++ ',' :: ' ' :: intToChars y ++
      ',' :: ' ' :: intToChars z) ?h]
    case h =>
      intro c hc
      rcases List.mem_append.mp hc with hc | hc
      · rcases List.mem_append.mp hc with hc | hc
        · exact ⟨(hx c hc).1, (hx c hc).2.1⟩
        · rcases List.mem_cons.mp hc with hc | hc
          · rw [hc]; exact ⟨by decide, by decide⟩
          · rcases List.mem_cons.mp hc with hc | hc
            · rw [hc]; exact ⟨by decide, by decide⟩
            · exact ⟨(hy c hc).1, (hy c hc).2.1⟩
      · rcases List.mem_cons.mp hc with hc | hc
        · rw [hc]; exact ⟨by decide, by decide⟩
        · rcases List.mem_cons.mp hc with hc | hc
          · rw [hc]; exact ⟨by decide, by decide⟩
          · exact ⟨(hz c hc).1, (hz c hc).2.1⟩
    show removeParens ['('] ++ _ ++ removeParens [')'] = _
    rw [show removeParens ['('] = [] from rfl, show removeParens [')'] = [] from rfl]
    simp
  rw [hrp]
  have hsplit : splitOnChar ',' (intToChars x ++ ',' :: ' ' :: intToChars y ++
      ',' :: ' ' :: intToChars z) =
      [intToChars x, ' ' :: intToChars y, ' ' :: intToChars z] := by
    have hshape : intToChars x ++ ',' :: ' ' :: intToChars y ++
        ',' :: ' ' :: intToChars z =
        intToChars x ++ ',' :: ((' ' :: intToChars y) ++
          ',' :: (' ' :: intToChars z)) := by simp
    rw [hshape, splitOnChar_append ',' _ _ (fun c hc => (hx c hc).2.2.1)]
    rw [splitOnChar_append ',' _ _ ?hb]
    case hb =>
      intro c hc
      rcases List.mem_cons.mp hc with hc | hc
      · rw [hc]; decide
      · exact (hy c hc).2.2.1
    rw [splitOnChar_nosep]
    intro c hc
    rcases List.mem_cons.mp hc with hc | hc
    · rw [hc]; decide
    · exact (hz c hc).2.2.1
  rw [hsplit]
  simp only [List.map]
  rw [parse_component_direct, parse_component_spaced, parse_component_spaced]

/-- C6: for every position, 2D or 3D, `fromString` of `toString` succeeds
and the parsed position `equals` the original (same `x`, same `y`, same
`z`-presence and value). -/
theorem c6_toString_fromString_roundtrip (p : Position) :
    Position.fromString (Position.toStr p) = Except.ok (Position.toJS p) ∧
      JSPos.equals (Position.toJS p) (Position.toJS p) = true := by
  constructor
  · cases hz : p.z with
    | none =>
      have hp : p = ⟨p.x, p.y, none⟩ := by
        cases p
        simp_all
      rw [hp]
      rw [fromString_toStr_2d]
      rfl
    | some zv =>
      have hp : p = ⟨p.x, p.y, some zv⟩ := by
        cases p
        simp_all
      rw [hp]
      rw [fromString_toStr_3d]
      rfl
  · unfold JSPos.equals Position.toJS jnumEq optJNumEq
    cases p.z <;> simp [jnumEq]

/-- C7 counterexample: the input `"a,b"` has two components, neither of
them numeric, yet `fromString` succeeds (with `NaN` coordinates) instead
of failing with a parse error. -/
theorem c7_counterexample :
    Position.fromString "a,b" = Except.ok ⟨none, none, none⟩ ∧
      parseFloatJS (trimChars ['a']) = none := by
  constructor
  · rfl
  · rfl

/-- C7 (amended): `fromString` returns a position exactly when the input
splits into 2 or 3 comma-separated components after paren stripping; the
numericity of the components is never checked (non-numeric components
become `NaN` coordinates rather than errors). -/
theorem c7_fromString_failure (s : String) :
    exceptIsOk (Position.fromString s) = true ↔
      componentCount s = 2 ∨ componentCount s = 3 := by
  unfold Position.fromString componentCount
  cases hL : splitOnChar ',' (removeParens s.data) with
  | nil => simp [exceptIsOk]
  | cons a t =>
    cases t with
    | nil => simp [exceptIsOk]
    | cons b t2 =>
      cases t2 with
      | nil => simp [exceptIsOk]
      | cons c t3 =>
        cases t3 with
        | nil => simp [exceptIsOk]
        | cons d t4 => simp [exceptIsOk]

/-! ## C4: bounds and wrapping of `getCell` -/

theorem tmod_neg_left (a b : Int) : (-a).tmod b = -(a.tmod b) := by
  rw [Int.tmod_def, Int.tmod_def, Int.neg_tdiv]
  ring

theorem tmod_gt_neg (x : Int) {w : Int} (hw : 0 < w) : -w < x.tmod w := by
  rcases le_or_lt 0 x with hx | hx
  · have := Int.tmod_nonneg w hx
    omega
  · have h1 : x.tmod w = -((-x).tmod w) := by
      rw [← tmod_neg_left, neg_neg]
    have h2 : (-x).tmod w < w := Int.tmod_lt_of_pos (-x) hw
    omega

theorem jsWrap_eq_emod (x : Int) {w : Int} (hw : 0 < w) :
    ((x.tmod w) + w).tmod w = x % w := by
  have h1 : -w < x.tmod w := tmod_gt_neg x hw
  have h2 : (0:Int) ≤ x.tmod w + w := by omega
  rw [Int.tmod_eq_emod h2 (le_of_lt hw)]
  have h3 : (x.tmod w + w) % w = x.tmod w % w := by
    have := Int.add_mul_emod_self_left (a := x.tmod w) (b := w) (c := 1)
    rwa [Int.mul_one] at this
  rw [h3, Int.tmod_def]
  have h4 : x - w * x.tdiv w = x + w * (-(x.tdiv w)) := by ring
  rw [h4, Int.add_mul_emod_self_left]

theorem wrapCoord_true_eq_emod (x : Int) {w : Int} (hw : 0 < w) :
    wrapCoord true x w = x % w := by
  unfold wrapCoord
  rw [if_pos rfl]
  exact jsWrap_eq_emod x hw

theorem mkMap_WF (width height : Int) (name : String) (cfg : MapConfigArg) :
    MapWF (mkMap width height name cfg) := by
  unfold MapWF mkMap
  constructor
  · simp
  · intro row hrow
    have := List.eq_of_mem_replicate hrow
    rw [this]
    simp

theorem cellsAt_of_bounds (cells : List (List MapCell)) (wx wy : Int)
    (hlen : cells.length = hn) (hrow : ∀ row ∈ cells, row.length = wn)
    (hx0 : 0 ≤ wx) (hxw : wx.toNat < wn) (hy0 : 0 ≤ wy) (hyh : wy.toNat < hn) :
    ∃ c, cellsAt cells wx wy = some c := by
  have hlt : wy.toNat < cells.length := by omega
  have hr : cells.get? wy.toNat = some (cells.get ⟨wy.toNat, hlt⟩) :=
    List.get?_eq_get hlt
  have hrl : (cells.get ⟨wy.toNat, hlt⟩).length = wn :=
    hrow _ (List.get_mem cells wy.toNat hlt)
  have hltx : wx.toNat < (cells.get ⟨wy.toNat, hlt⟩).length := by omega
  have hx : (cells.get ⟨wy.toNat, hlt⟩).get? wx.toNat =
      some ((cells.get ⟨wy.toNat, hlt⟩).get ⟨wx.toNat, hltx⟩) :=
    List.get?_eq_get hltx
  refine ⟨(cells.get ⟨wy.toNat, hlt⟩).get ⟨wx.toNat, hltx⟩, ?_⟩
  unfold cellsAt jsIndex
  rw [if_pos hy0, hr]
  show (if 0 ≤ wx then (cells.get ⟨wy.toNat, hlt⟩).get? wx.toNat else none) = _
  rw [if_pos hx0, hx]

/-- C4: with positive dimensions and a well-formed grid, a non-wrapping
map resolves a cell exactly for in-bounds coordinates, while a wrapping
map resolves a cell everywhere and is periodic with period (width,
height). -/
theorem c4_getCell_bounds_and_wrap (m : GameMap) (hwf : MapWF m)
    (hw : 0 < m.width) (hh : 0 < m.height) :
    (m.config.wrapEdges = false →
      ∀ x y : Int, (m.getCell x y).isSome = true ↔
        (0 ≤ x ∧ x < m.width ∧ 0 ≤ y ∧ y < m.height)) ∧
    (m.config.wrapEdges = true →
      ∀ x y : Int, (m.getCell x y).isSome = true ∧
        m.getCell x y = m.getCell (x + m.width) (y + m.height)) := by
  obtain ⟨hlen, hrow⟩ := hwf
  constructor
  · intro hwrap x y
    unfold GameMap.getCell GameMap.isValidCoordinate
    rw [hwrap]
    simp only [Bool.false_eq_true, if_false]
    constructor
    · intro h
      by_cases hcond : (decide (0 ≤ x) && decide (x < m.width) && decide (0 ≤ y) &&
          decide (y < m.height)) = true
      · simp only [Bool.and_eq_true, decide_eq_true_eq] at hcond
        exact ⟨hcond.1.1.1, hcond.1.1.2, hcond.1.2, hcond.2⟩
      · rw [if_neg hcond] at h
        simp at h
    · intro hb
      obtain ⟨h1, h2, h3, h4⟩ := hb
      rw [if_pos (by simp [h1, h2, h3, h4])]
      unfold GameMap.wrapX GameMap.wrapY wrapCoord
      rw [hwrap]
      simp only [Bool.false_eq_true, if_false]
      obtain ⟨c, hc⟩ := cellsAt_of_bounds m.cells x y hlen hrow h1 (by omega) h3 (by omega)
      rw [hc]
      rfl
  · intro hwrap x y
    have hvalid : m.isValidCoordinate x y = true := by
      unfold GameMap.isValidCoordinate
      rw [hwrap]
      simp
    have hvalid2 : m.isValidCoordinate (x + m.width) (y + m.height) = true := by
      unfold GameMap.isValidCoordinate
      rw [hwrap]
      simp
    have hwx : m.wrapX x = x % m.width := by
      unfold GameMap.wrapX
      rw [hwrap]
      exact wrapCoord_true_eq_emod x hw
    have hwy : m.wrapY y = y % m.height := by
      unfold GameMap.wrapY
      rw [hwrap]
      exact wrapCoord_true_eq_emod y hh
    have hwx2 : m.wrapX (x + m.width) = x % m.width := by
      unfold GameMap.wrapX
      rw [hwrap, wrapCoord_true_eq_emod _ hw]
      have := Int.add_mul_emod_self_left (a := x) (b := m.width) (c := 1)
      rwa [Int.mul_one] at this
    have hwy2 : m.wrapY (y + m.height) = y % m.height := by
      unfold GameMap.wrapY
      rw [hwrap, wrapCoord_true_eq_emod _ hh]
      have := Int.add_mul_emod_self_left (a := y) (b := m.height) (c := 1)
      rwa [Int.mul_one] at this
    constructor
    · unfold GameMap.getCell
      rw [if_pos hvalid, hwx, hwy]
      obtain ⟨c, hc⟩ := cellsAt_of_bounds m.cells (x % m.width) (y % m.height) hlen hrow
        (Int.emod_nonneg x (by omega)) (by
          have h1 := Int.emod_lt_of_pos x hw
          have h2 := Int.emod_nonneg x (show m.width ≠ 0 by omega)
          omega)
        (Int.emod_nonneg y (by omega)) (by
          have h1 := Int.emod_lt_of_pos y hh
          have h2 := Int.emod_nonneg y (show m.height ≠ 0 by omega)
          omega)
      rw [hc]
      rfl
    · unfold GameMap.getCell
      rw [if_pos hvalid, if_pos hvalid2, hwx, hwy, hwx2, hwy2]

/-- C4 witness: a 3x2 wrapping map resolves the out-of-range coordinate
(-1, 5) and agrees with the shifted lookup; a 3x2 bounded map resolves
exactly the in-bounds coordinates. -/
theorem c4_witness :
    (((mkMap 3 2 "W" ⟨some true, none, none⟩).getCell (-1) 5).isSome = true ∧
      (mkMap 3 2 "W" ⟨some true, none, none⟩).getCell (-1) 5 =
        (mkMap 3 2 "W" ⟨some true, none, none⟩).getCell (-1 + 3) (5 + 2)) ∧
    (((mkMap 3 2 "B" ⟨none, none, none⟩).getCell 2 1).isSome = true ↔
      (0 ≤ (2:Int) ∧ (2:Int) < 3 ∧ 0 ≤ (1:Int) ∧ (1:Int) < 2)) := by
  constructor
  · exact (c4_getCell_bounds_and_wrap (mkMap 3 2 "W" ⟨some true, none, none⟩)
      (mkMap_WF 3 2 "W" ⟨some true, none, none⟩) (by decide) (by decide)).2
      (by decide) (-1) 5
  · exact (c4_getCell_bounds_and_wrap (mkMap 3 2 "B" ⟨none, none, none⟩)
      (mkMap_WF 3 2 "B" ⟨none, none, none⟩) (by decide) (by decide)).1
      (by decide) 2 1

/-! ## Cell update lemmas -/

theorem jsIndex_listModify {α : Type} (l : List α) (n : Nat) (f : α → α) (i : Int) :
    jsIndex (listModify l n f) i =
      if 0 ≤ i ∧ i.toNat = n then (l.get? n).map f else jsIndex l i := by
  by_cases h : 0 ≤ i
  · by_cases h2 : i.toNat = n
    · rw [if_pos ⟨h, h2⟩]
      unfold jsIndex
      rw [if_pos h, listModify_get?, if_pos h2]
    · rw [if_neg (fun hc => h2 hc.2)]
      unfold jsIndex
      rw [if_pos h, if_pos h, listModify_get?, if_neg h2]
  · rw [if_neg (fun hc => h hc.1)]
    unfold jsIndex
    rw [if_neg h, if_neg h]

theorem cellsAt_eq_bind (cells : List (List MapCell)) (wx wy : Int) :
    cellsAt cells wx wy = (jsIndex cells wy).bind (fun row => jsIndex row wx) := by
  unfold cellsAt
  cases jsIndex cells wy with
  | none => rfl
  | some row => rfl

theorem cellsAt_neg (cells : List (List MapCell)) (a b : Int)
    (h : a < 0 ∨ b < 0) : cellsAt cells a b = none := by
  rw [cellsAt_eq_bind]
  rcases h with h | h
  · cases hj : jsIndex cells b with
    | none => rfl
    | some row =>
      simp only [Option.some_bind]
      unfold jsIndex
      rw [if_neg (by omega)]
  · have hjb : jsIndex cells b = none := by
      unfold jsIndex
      rw [if_neg (by omega)]
    rw [hjb]
    rfl

theorem cellsAt_cellsModify (cells : List (List MapCell)) (wx wy : Int)
    (f : MapCell → MapCell) (a b : Int) :
    cellsAt (cellsModify cells wx wy f) a b =
      if a = wx ∧ b = wy then (cellsAt cells a b).map f
      else cellsAt cells a b := by
  unfold cellsModify
  by_cases hg : 0 ≤ wx ∧ 0 ≤ wy
  · rw [if_pos hg, cellsAt_eq_bind, cellsAt_eq_bind, jsIndex_listModify]
    by_cases hb : 0 ≤ b ∧ b.toNat = wy.toNat
    · have hbwy : b = wy := by omega
      rw [if_pos hb]
      have hjb : jsIndex cells b = cells.get? wy.toNat := by
        unfold jsIndex
        rw [if_pos hb.1, hb.2]
      rw [hjb]
      cases hrow : cells.get? wy.toNat with
      | none =>
        simp only [Option.map_none', Option.none_bind]
        by_cases hc : a = wx ∧ b = wy
        · rw [if_pos hc]
        · rw [if_neg hc]
      | some row =>
        simp only [Option.map_some', Option.some_bind]
        rw [jsIndex_listModify]
        by_cases ha : 0 ≤ a ∧ a.toNat = wx.toNat
        · have hawx : a = wx := by omega
          rw [if_pos ha, if_pos ⟨hawx, hbwy⟩]
          have hja : jsIndex row a = row.get? wx.toNat := by
            unfold jsIndex
            rw [if_pos ha.1, ha.2]
          rw [hja]
        · have hnc : ¬(a = wx ∧ b = wy) := by
            intro hc
            exact ha ⟨by omega, by rw [hc.1]⟩
          rw [if_neg ha, if_neg hnc]
    · have hnc : ¬(a = wx ∧ b = wy) := by
        intro hc
        exact hb ⟨by omega, by rw [hc.2]⟩
      rw [if_neg hb, if_neg hnc]
  · rw [if_neg hg]
    by_cases hc : a = wx ∧ b = wy
    · rw [if_pos hc]
      have hz : cellsAt cells a b = none := by
        apply cellsAt_neg
        omega
      rw [hz]
      rfl
    · rw [if_neg hc]

theorem modifyCell_width (m : GameMap) (x y : Int) (f : MapCell → MapCell) :
    (m.modifyCell x y f).width = m.width := rfl

theorem modifyCell_height (m : GameMap) (x y : Int) (f : MapCell → MapCell) :
    (m.modifyCell x y f).height = m.height := rfl

theorem modifyCell_name (m : GameMap) (x y : Int) (f : MapCell → MapCell) :
    (m.modifyCell x y f).name = m.name := rfl

theorem modifyCell_config (m : GameMap) (x y : Int) (f : MapCell → MapCell) :
    (m.modifyCell x y f).config = m.config := rfl

theorem wrapX_modifyCell (m : GameMap) (x y : Int) (f : MapCell → MapCell) (a : Int) :
    (m.modifyCell x y f).wrapX a = m.wrapX a := rfl

theorem wrapY_modifyCell (m : GameMap) (x y : Int) (f : MapCell → MapCell) (a : Int) :
    (m.modifyCell x y f).wrapY a = m.wrapY a := rfl

theorem isValid_modifyCell (m : GameMap) (x y : Int) (f : MapCell → MapCell) (a b : Int) :
    (m.modifyCell x y f).isValidCoordinate a b = m.isValidCoordinate a b := rfl

theorem getCell_modifyCell (m : GameMap) (x y : Int) (f : MapCell → MapCell)
    (a b : Int) :
    (m.modifyCell x y f).getCell a b =
      if m.wrapX a = m.wrapX x ∧ m.wrapY b = m.wrapY y then (m.getCell a b).map f
      else m.getCell a b := by
  unfold GameMap.getCell
  rw [isValid_modifyCell, wrapX_modifyCell, wrapY_modifyCell]
  by_cases hv : m.isValidCoordinate a b = true
  · rw [if_pos hv, if_pos hv]
    show cellsAt (cellsModify m.cells (m.wrapX x) (m.wrapY y) f) _ _ = _
    rw [cellsAt_cellsModify]
  · rw [if_neg hv, if_neg hv]
    by_cases hc : m.wrapX a = m.wrapX x ∧ m.wrapY b = m.wrapY y
    · rw [if_pos hc]
      rfl
    · rw [if_neg hc]

theorem getCell_some_valid (m : GameMap) (x y : Int) (c : MapCell)
    (h : m.getCell x y = some c) : m.isValidCoordinate x y = true := by
  unfold GameMap.getCell at h
  by_cases hv : m.isValidCoordinate x y = true
  · exact hv
  · rw [if_neg hv] at h
    exact absurd h (by simp)

theorem getCell_some_cellsAt (m : GameMap) (x y : Int) (c : MapCell)
    (h : m.getCell x y = some c) :
    cellsAt m.cells (m.wrapX x) (m.wrapY y) = some c := by
  unfold GameMap.getCell at h
  rw [if_pos (getCell_some_valid m x y c (by assumption))] at h
  exact h

/-! ## C5: terrain replacement and default merging -/

/-- C5: on any resolved cell, `setTerrain` succeeds and replaces the
cell's terrain and properties with the per-kind defaults merged with the
caller's overrides (override winning per field), keeping the occupant;
unknown kinds fall back to grass's defaults; and on a fresh 10x10 map,
`setTerrain(5,5,'water')` makes `getMovementCost(5,5)` equal `2.0`. -/
theorem c5_setTerrain_merge (m : GameMap) (x y : Int) (t : String)
    (ov : TerrainPropsOverride) (c : MapCell) (h : m.getCell x y = some c) :
    (m.setTerrain x y t (some ov)).2 = true ∧
    ((m.setTerrain x y t (some ov)).1).getCell x y = some
      { terrain := t
        properties :=
          { movementCost :=
              ov.movementCost.getD (getDefaultTerrainProperties t).movementCost
            defenseBonus :=
              Option.or ov.defenseBonus (getDefaultTerrainProperties t).defenseBonus
            visibilityModifier :=
              Option.or ov.visibilityModifier
                (getDefaultTerrainProperties t).visibilityModifier
            movementBlocked :=
              Option.or ov.movementBlocked
                (getDefaultTerrainProperties t).movementBlocked }
        occupiedBy := c.occupiedBy } ∧
    (∀ t2, t2 ∉ knownTerrains →
      getDefaultTerrainProperties t2 = getDefaultTerrainProperties "grass") ∧
    ((mkMap 10 10 "M" ⟨none, none, none⟩).setTerrain 5 5 "water" none).1.getMovementCost
      5 5 = some 2 := by
  have hv := getCell_some_valid m x y c h
  have hca := getCell_some_cellsAt m x y c h
  have hst : m.setTerrain x y t (some ov) =
      (m.modifyCell x y (fun cc =>
        { cc with terrain := t, properties := objectAssign (getDefaultTerrainProperties t) ov }),
       true) := by
    unfold GameMap.setTerrain
    rw [if_neg (by rw [hv]; intro hc; exact hc rfl)]
    simp only [hca]
  refine ⟨by rw [hst], ?_, ?_, ?_⟩
  · rw [hst]
    show (m.modifyCell x y _).getCell x y = _
    rw [getCell_modifyCell, if_pos ⟨rfl, rfl⟩, h]
    rfl
  · intro t2 hmem
    simp only [knownTerrains, List.mem_cons, List.not_mem_nil, or_false] at hmem
    push_neg at hmem
    obtain ⟨h1, h2, h3, h4, h5, h6, h7, h8, h9, h10⟩ := hmem
    unfold getDefaultTerrainProperties
    rw [if_neg h1, if_neg h2, if_neg h3, if_neg h4, if_neg h5, if_neg h6,
      if_neg h7, if_neg h8, if_neg h9, if_neg h10, if_pos rfl]
  · decide

/-- C5 witness: overriding water's movement cost on a fresh map. -/
theorem c5_witness :
    ((mkMap 10 10 "M" ⟨none, none, none⟩).setTerrain 5 5 "water"
      (some ⟨some 9, none, none, none⟩)).2 = true ∧
    (((mkMap 10 10 "M" ⟨none, none, none⟩).setTerrain 5 5 "water"
      (some ⟨some 9, none, none, none⟩)).1).getCell 5 5 = some
      { terrain := "water"
        properties :=
          { movementCost :=
              (some (9:ℚ)).getD (getDefaultTerrainProperties "water").movementCost
            defenseBonus :=
              Option.or none (getDefaultTerrainProperties "water").defenseBonus
            visibilityModifier :=
              Option.or none (getDefaultTerrainProperties "water").visibilityModifier
            movementBlocked :=
              Option.or none (getDefaultTerrainProperties "water").movementBlocked }
        occupiedBy := (createDefaultCell (mkMapConfig ⟨none, none, none⟩)).occupiedBy } ∧
    (∀ t2, t2 ∉ knownTerrains →
      getDefaultTerrainProperties t2 = getDefaultTerrainProperties "grass") ∧
    ((mkMap 10 10 "M" ⟨none, none, none⟩).setTerrain 5 5 "water" none).1.getMovementCost
      5 5 = some 2 :=
  c5_setTerrain_merge (mkMap 10 10 "M" ⟨none, none, none⟩) 5 5 "water"
    ⟨some 9, none, none, none⟩ (createDefaultCell (mkMapConfig ⟨none, none, none⟩))
    (by decide)

/-! ## C8: constructor validation and cell initialization -/

/-- C8 counterexample: constructing a map with width 0 (a non-positive
dimension) does not fail — it yields a well-defined degenerate Map value
with five empty rows. The claimed constructor assertion does not exist
(only `resize` validates dimensions). -/
theorem c8_counterexample :
    mkMap 0 5 "M" ⟨none, none, none⟩ =
      ⟨0, 5, "M", ⟨false, "grass", 1⟩, List.replicate 5 []⟩ := by
  decide

/-- C8 (amended): the constructor performs no dimension validation; for
positive dimensions it builds `height` rows of `width` cells, each
initialized to the effective default terrain and movement cost (the
configured values, except that a falsy configured terrain or cost falls
back to `'grass'` / `1.0`) with no occupant. -/
theorem c8_constructor_cells (width height : Int) (hw : 0 < width)
    (hh : 0 < height) (name : String) (cfg : MapConfigArg) (x y : Int)
    (hx0 : 0 ≤ x) (hxw : x < width) (hy0 : 0 ≤ y) (hyh : y < height) :
    (mkMap width height name cfg).cells.length = height.toNat ∧
    (∀ row ∈ (mkMap width height name cfg).cells, row.length = width.toNat) ∧
    (mkMap width height name cfg).getCell x y = some
      { terrain := if cfg.defaultTerrain.getD "grass" = "" then "grass"
                   else cfg.defaultTerrain.getD "grass"
        properties :=
          { movementCost := if cfg.defaultMovementCost.getD 1 = 0 then 1
                            else cfg.defaultMovementCost.getD 1
            defenseBonus := none
            visibilityModifier := none
            movementBlocked := none }
        occupiedBy := none } := by
  obtain ⟨hlen, hrow⟩ := mkMap_WF width height name cfg
  refine ⟨hlen, hrow, ?_⟩
  have hcells : (mkMap width height name cfg).cells =
      List.replicate height.toNat
        (List.replicate width.toNat (createDefaultCell (mkMapConfig cfg))) := rfl
  have hca : cellsAt (mkMap width height name cfg).cells x y =
      some (createDefaultCell (mkMapConfig cfg)) := by
    rw [cellsAt_eq_bind, hcells]
    have hjy : jsIndex (List.replicate height.toNat
        (List.replicate width.toNat (createDefaultCell (mkMapConfig cfg)))) y =
        some (List.replicate width.toNat (createDefaultCell (mkMapConfig cfg))) := by
      unfold jsIndex
      rw [if_pos hy0, get?_replicate, if_pos (by omega)]
    rw [hjy]
    simp only [Option.some_bind]
    unfold jsIndex
    rw [if_pos hx0, get?_replicate, if_pos (by omega)]
  have hgoal : (mkMap width height name cfg).getCell x y =
      some (createDefaultCell (mkMapConfig cfg)) := by
    unfold GameMap.getCell GameMap.wrapX GameMap.wrapY
    by_cases hwr : (mkMap width height name cfg).config.wrapEdges = true
    · rw [if_pos (by unfold GameMap.isValidCoordinate; rw [hwr]; simp)]
      rw [hwr]
      have hwx : wrapCoord true x (mkMap width height name cfg).width = x := by
        rw [show (mkMap width height name cfg).width = width from rfl,
          wrapCoord_true_eq_emod x hw, Int.emod_eq_of_lt hx0 hxw]
      have hwy : wrapCoord true y (mkMap width height name cfg).height = y := by
        rw [show (mkMap width height name cfg).height = height from rfl,
          wrapCoord_true_eq_emod y hh, Int.emod_eq_of_lt hy0 hyh]
      rw [hwx, hwy, hca]
    · have hwrf : (mkMap width height name cfg).config.wrapEdges = false := by
        revert hwr
        cases (mkMap width height name cfg).config.wrapEdges <;> simp
      rw [if_pos (by
        unfold GameMap.isValidCoordinate
        rw [hwrf]
        simp only [Bool.false_eq_true, if_false]
        show (decide (0 ≤ x) && decide (x < width) && decide (0 ≤ y) &&
          decide (y < height)) = true
        simp [hx0, hxw, hy0, hyh])]
      rw [hwrf]
      unfold wrapCoord
      simp only [Bool.false_eq_true, if_false]
      exact hca
  rw [hgoal]
  rfl

/-- C8 witness: a 4x3 map with a custom configuration. -/
theorem c8_witness :
    (mkMap 4 3 "W" ⟨none, some "sand", some 3⟩).cells.length = (3:Int).toNat ∧
    (∀ row ∈ (mkMap 4 3 "W" ⟨none, some "sand", some 3⟩).cells,
      row.length = (4:Int).toNat) ∧
    (mkMap 4 3 "W" ⟨none, some "sand", some 3⟩).getCell 2 1 = some
      { terrain := if (some "sand").getD "grass" = "" then "grass"
                   else (some "sand").getD "grass"
        properties :=
          { movementCost := if (some (3:ℚ)).getD 1 = 0 then 1 else (some (3:ℚ)).getD 1
            defenseBonus := none
            visibilityModifier := none
            movementBlocked := none }
        occupiedBy := none } :=
  c8_constructor_cells 4 3 (by decide) (by decide) "W" ⟨none, some "sand", some 3⟩
    2 1 (by decide) (by decide) (by decide) (by decide)

/-! ## Map-level unit operation lemmas -/

theorem canPlace_iff (m : GameMap) (x y : Int) :
    m.canPlaceUnitAt x y = true ↔
      ∃ c, m.getCell x y = some c ∧
        c.properties.movementBlocked.getD false = false ∧
        strTruthy c.occupiedBy = false := by
  unfold GameMap.canPlaceUnitAt
  cases hg : m.getCell x y with
  | none => simp
  | some c =>
    simp only [Bool.and_eq_true, Bool.not_eq_true']
    constructor
    · intro h
      exact ⟨c, rfl, h.1, h.2⟩
    · intro h
      obtain ⟨c2, hc2, hb, ho⟩ := h
      injection hc2 with heq
      rw [heq]
      exact ⟨hb, ho⟩

theorem removeUnitAt_of_none (m : GameMap) (x y : Int)
    (h : m.getCell x y = none) : m.removeUnitAt x y = (m, false) := by
  unfold GameMap.removeUnitAt
  rw [h]

theorem removeUnitAt_of_some (m : GameMap) (x y : Int) (c : MapCell)
    (h : m.getCell x y = some c) :
    m.removeUnitAt x y = (m.modifyCell x y clearOcc, true) := by
  unfold GameMap.removeUnitAt
  rw [h]
  rfl

theorem placeUnit_of_not (m : GameMap) (id : String) (x y : Int)
    (h : m.canPlaceUnitAt x y = false) : m.placeUnit id x y = (m, false) := by
  unfold GameMap.placeUnit
  rw [if_pos (by rw [h]; intro hc; exact Bool.false_ne_true hc)]

theorem placeUnit_of_canPlace (m : GameMap) (id : String) (x y : Int)
    (h : m.canPlaceUnitAt x y = true) :
    m.placeUnit id x y = (m.modifyCell x y (setOcc id), true) := by
  obtain ⟨c, hc, _, _⟩ := (canPlace_iff m x y).mp h
  unfold GameMap.placeUnit
  rw [if_neg (by rw [h]; intro hc2; exact hc2 rfl)]
  rw [getCell_some_cellsAt m x y c hc]
  rfl

theorem placeUnit_snd (m : GameMap) (id : String) (x y : Int) :
    (m.placeUnit id x y).2 = m.canPlaceUnitAt x y := by
  cases h : m.canPlaceUnitAt x y with
  | false => rw [placeUnit_of_not m id x y h]
  | true => rw [placeUnit_of_canPlace m id x y h]

theorem removeUnitAt_name (m : GameMap) (x y : Int) :
    ((m.removeUnitAt x y).1).name = m.name := by
  unfold GameMap.removeUnitAt
  cases hg : m.getCell x y <;> rfl

theorem removeUnitAt_config (m : GameMap) (x y : Int) :
    ((m.removeUnitAt x y).1).config = m.config := by
  unfold GameMap.removeUnitAt
  cases hg : m.getCell x y <;> rfl

theorem removeUnitAt_wrapX (m : GameMap) (x y a : Int) :
    ((m.removeUnitAt x y).1).wrapX a = m.wrapX a := by
  unfold GameMap.removeUnitAt
  cases hg : m.getCell x y <;> rfl

theorem removeUnitAt_wrapY (m : GameMap) (x y a : Int) :
    ((m.removeUnitAt x y).1).wrapY a = m.wrapY a := by
  unfold GameMap.removeUnitAt
  cases hg : m.getCell x y <;> rfl

theorem placeUnit_name (m : GameMap) (id : String) (x y : Int) :
    ((m.placeUnit id x y).1).name = m.name := by
  cases h : m.canPlaceUnitAt x y with
  | false => rw [placeUnit_of_not m id x y h]
  | true => rw [placeUnit_of_canPlace m id x y h]; rfl

theorem canPlace_removeUnitAt (m : GameMap) (x y a b : Int)
    (h : m.canPlaceUnitAt a b = true) :
    ((m.removeUnitAt x y).1).canPlaceUnitAt a b = true := by
  obtain ⟨c, hc, hb, ho⟩ := (canPlace_iff m a b).mp h
  cases hg : m.getCell x y with
  | none =>
    rw [removeUnitAt_of_none m x y hg]
    exact h
  | some c0 =>
    rw [removeUnitAt_of_some m x y c0 hg]
    rw [canPlace_iff]
    rw [getCell_modifyCell]
    by_cases hcond : m.wrapX a = m.wrapX x ∧ m.wrapY b = m.wrapY y
    · rw [if_pos hcond, hc]
      exact ⟨clearOcc c, rfl, hb, rfl⟩
    · rw [if_neg hcond]
      exact ⟨c, hc, hb, ho⟩

/-! ## World list lemmas -/

theorem findMap_cons_pos (m : GameMap) (l : List GameMap) (k : String)
    (h : m.name = k) : findMap (m :: l) k = some m := by
  unfold findMap
  rw [List.find?_cons_of_pos _ (by simp [h])]

theorem findMap_cons_neg (m : GameMap) (l : List GameMap) (k : String)
    (h : m.name ≠ k) : findMap (m :: l) k = findMap l k := by
  unfold findMap
  rw [List.find?_cons_of_neg _ (by simp [h])]

theorem findMap_mapsUpdate (l : List GameMap) (n : String) (f : GameMap → GameMap)
    (hf : ∀ m, m.name = n → (f m).name = m.name) (k : String) :
    findMap (mapsUpdate l n f) k =
      if k = n then (findMap l n).map f else findMap l k := by
  induction l with
  | nil =>
    unfold mapsUpdate findMap
    by_cases h : k = n <;> simp [h]
  | cons m rest ih =>
    unfold mapsUpdate
    by_cases hm : m.name = n
    · rw [if_pos hm]
      by_cases hk : k = n
      · rw [if_pos hk, findMap_cons_pos _ _ _ (by rw [hf m hm, hm, hk]),
          findMap_cons_pos _ _ _ (by rw [hm])]
        rfl
      · rw [if_neg hk, findMap_cons_neg _ _ _ (by rw [hf m hm, hm]; exact fun hc => hk hc.symm),
          findMap_cons_neg _ _ _ (by rw [hm]; exact fun hc => hk hc.symm)]
    · rw [if_neg hm]
      show findMap (m :: mapsUpdate rest n f) k = _
      by_cases hmk : m.name = k
      · rw [findMap_cons_pos _ _ _ hmk]
        have hk : ¬(k = n) := by
          intro hc
          rw [hc] at hmk
          exact hm hmk
        rw [if_neg hk, findMap_cons_pos _ _ _ hmk]
      · rw [findMap_cons_neg _ _ _ hmk, ih]
        by_cases hk : k = n
        · rw [if_pos hk, if_pos hk, findMap_cons_neg _ _ _ (by rw [hk] at hmk; exact hm)]
        · rw [if_neg hk, if_neg hk, findMap_cons_neg _ _ _ hmk]

theorem mapsUpdate_names (l : List GameMap) (n : String) (f : GameMap → GameMap)
    (hf : ∀ m, m.name = n → (f m).name = m.name) :
    (mapsUpdate l n f).map GameMap.name = l.map GameMap.name := by
  induction l with
  | nil => rfl
  | cons m rest ih =>
    unfold mapsUpdate
    by_cases hm : m.name = n
    · rw [if_pos hm]
      simp [hf m hm]
    · rw [if_neg hm]
      simp [ih]

theorem mapsUpdate_of_findMap_none (l : List GameMap) (n : String)
    (f : GameMap → GameMap) (h : findMap l n = none) : mapsUpdate l n f = l := by
  induction l with
  | nil => rfl
  | cons m rest ih =>
    by_cases hm : m.name = n
    · rw [findMap_cons_pos _ _ _ hm] at h
      exact absurd h (by simp)
    · rw [findMap_cons_neg _ _ _ hm] at h
      unfold mapsUpdate
      rw [if_neg hm, ih h]

theorem mapsUpdate_const (l : List GameMap) (n : String) (f : GameMap → GameMap)
    (m0 : GameMap) (h : findMap l n = some m0) :
    mapsUpdate l n f = mapsUpdate l n (fun _ => f m0) := by
  induction l with
  | nil => rfl
  | cons m rest ih =>
    unfold mapsUpdate
    by_cases hm : m.name = n
    · rw [findMap_cons_pos _ _ _ hm] at h
      injection h with heq
      rw [if_pos hm, if_pos hm, heq]
    · rw [findMap_cons_neg _ _ _ hm] at h
      rw [if_neg hm, if_neg hm, ih h]

theorem findMap_eraseMap_ne (l : List GameMap) (n k : String) (hk : k ≠ n) :
    findMap (eraseMap l n) k = findMap l k := by
  induction l with
  | nil => rfl
  | cons m rest ih =>
    unfold eraseMap
    by_cases hm : m.name = n
    · rw [if_pos hm, findMap_cons_neg _ _ _ (by rw [hm]; exact fun hc => hk hc.symm)]
    · rw [if_neg hm]
      by_cases hmk : m.name = k
      · rw [findMap_cons_pos _ _ _ hmk, findMap_cons_pos _ _ _ hmk]
      · rw [findMap_cons_neg _ _ _ hmk, findMap_cons_neg _ _ _ hmk, ih]

theorem findMap_eraseMap_self (l : List GameMap) (n : String)
    (hnd : (l.map GameMap.name).Nodup) : findMap (eraseMap l n) n = none := by
  induction l with
  | nil => rfl
  | cons m rest ih =>
    simp only [List.map, List.nodup_cons] at hnd
    unfold eraseMap
    by_cases hm : m.name = n
    · rw [if_pos hm]
      unfold findMap
      rw [List.find?_eq_none]
      intro m2 hm2 hc
      apply hnd.1
      rw [← hm] at hc
      have hc2 : m2.name = m.name := by
        have := of_decide_eq_true hc
        rw [this, hm]
      rw [← hc2]
      exact List.mem_map_of_mem GameMap.name hm2
    · rw [if_neg hm, findMap_cons_neg _ _ _ hm]
      exact ih hnd.2

theorem eraseMap_names_sublist (l : List GameMap) (n : String) :
    ((eraseMap l n).map GameMap.name).Sublist (l.map GameMap.name) := by
  induction l with
  | nil => simp [eraseMap]
  | cons m rest ih =>
    unfold eraseMap
    by_cases hm : m.name = n
    · rw [if_pos hm]
      simp only [List.map]
      exact List.sublist_cons_self _ _
    · rw [if_neg hm]
      simp only [List.map]
      exact ih.cons₂ _

theorem mem_eraseMap (l : List GameMap) (n : String) (m : GameMap)
    (hm : m ∈ l) (hne : m.name ≠ n) : m ∈ eraseMap l n := by
  induction l with
  | nil => exact absurd hm (by simp)
  | cons m2 rest ih =>
    unfold eraseMap
    rcases List.mem_cons.mp hm with h | h
    · rw [if_neg (by rw [← h]; exact hne)]
      rw [h]
      exact List.mem_cons_self _ _
    · by_cases hm2 : m2.name = n
      · rw [if_pos hm2]
        exact h
      · rw [if_neg hm2]
        exact List.mem_cons_of_mem _ (ih h)

theorem findMap_append_of_some (l : List GameMap) (m2 : GameMap) (k : String)
    (h : (findMap l k).isSome = true) : findMap (l ++ [m2]) k = findMap l k := by
  unfold findMap at h ⊢
  rw [List.find?_append]
  cases hf : l.find? (fun m => decide (m.name = k)) with
  | none =>
    rw [hf] at h
    exact absurd h (by simp)
  | some mf => rfl

theorem upLookup_nil (id : String) : upLookup [] id = none := rfl

theorem upLookup_cons_pos (e : String × UnitPos) (l : List (String × UnitPos))
    (id : String) (h : e.1 = id) : upLookup (e :: l) id = some e.2 := by
  unfold upLookup
  rw [List.find?_cons_of_pos _ (by simp [h])]

theorem upLookup_cons_neg (e : String × UnitPos) (l : List (String × UnitPos))
    (id : String) (h : e.1 ≠ id) : upLookup (e :: l) id = upLookup l id := by
  unfold upLookup
  rw [List.find?_cons_of_neg _ (by simp [h])]

theorem upLookup_upSet (l : List (String × UnitPos)) (id : String) (v : UnitPos)
    (k : String) :
    upLookup (upSet l id v) k = if k = id then some v else upLookup l k := by
  induction l with
  | nil =>
    unfold upSet
    by_cases h : k = id
    · rw [if_pos h, upLookup_cons_pos _ _ _ (by simp [h])]
    · rw [if_neg h, upLookup_cons_neg _ _ _ (by simp; exact fun hc => h hc.symm)]
  | cons e rest ih =>
    unfold upSet
    by_cases he : e.1 = id
    · rw [if_pos he]
      by_cases hk : k = id
      · rw [if_pos hk, upLookup_cons_pos _ _ _ (by simp [hk])]
      · rw [if_neg hk, upLookup_cons_neg _ _ _ (by simp; exact fun hc => hk hc.symm),
          upLookup_cons_neg _ _ _ (by rw [he]; exact fun hc => hk hc.symm)]
    · rw [if_neg he]
      by_cases hek : e.1 = k
      · rw [upLookup_cons_pos _ _ _ hek, upLookup_cons_pos _ _ _ hek,
          if_neg (by intro hc; rw [hc] at hek; exact he hek)]
      · rw [upLookup_cons_neg _ _ _ hek, upLookup_cons_neg _ _ _ hek, ih]

theorem upKeys_upSet (l : List (String × UnitPos)) (id : String) (v : UnitPos) :
    upKeys (upSet l id v) = if id ∈ upKeys l then upKeys l else upKeys l ++ [id] := by
  induction l with
  | nil => simp [upSet, upKeys]
  | cons e rest ih =>
    unfold upSet
    by_cases he : e.1 = id
    · rw [if_pos he]
      have : id ∈ upKeys (e :: rest) := by
        unfold upKeys
        simp [he]
      rw [if_pos this]
      unfold upKeys
      simp [he]
    · rw [if_neg he]
      show upKeys (e :: upSet rest id v) = _
      unfold upKeys at ih ⊢
      simp only [List.map, List.mem_cons]
      rw [ih]
      by_cases hmem : id ∈ rest.map Prod.fst
      · rw [if_pos hmem, if_pos (Or.inr hmem)]
      · rw [if_neg hmem, if_neg (by
          intro hc
          rcases hc with hc | hc
          · exact he hc.symm
          · exact hmem hc)]
        simp

theorem upSet_nodup (l : List (String × UnitPos)) (id : String) (v : UnitPos)
    (h : (upKeys l).Nodup) : (upKeys (upSet l id v)).Nodup := by
  rw [upKeys_upSet]
  by_cases hmem : id ∈ upKeys l
  · rw [if_pos hmem]
    exact h
  · rw [if_neg hmem]
    rw [List.nodup_append]
    exact ⟨h, List.nodup_singleton id, by simpa using hmem⟩

theorem mem_upSet_iff (l : List (String × UnitPos)) (id : String) (v : UnitPos)
    (hnd : (upKeys l).Nodup) (e : String × UnitPos) :
    e ∈ upSet l id v ↔ (e = (id, v) ∨ (e ∈ l ∧ e.1 ≠ id)) := by
  induction l with
  | nil =>
    unfold upSet
    simp
  | cons e2 rest ih =>
    unfold upKeys at hnd
    simp only [List.map, List.nodup_cons] at hnd
    unfold upSet
    by_cases he : e2.1 = id
    · rw [if_pos he]
      simp only [List.mem_cons]
      constructor
      · intro h
        rcases h with h | h
        · exact Or.inl h
        · refine Or.inr ⟨Or.inr h, ?_⟩
          intro hc
          apply hnd.1
          rw [he, ← hc]
          exact List.mem_map_of_mem Prod.fst h
      · intro h
        rcases h with h | ⟨h, hne⟩
        · exact Or.inl h
        · rcases h with h | h
          · exfalso
            apply hne
            rw [h, he]
          · exact Or.inr h
    · rw [if_neg he]
      simp only [List.mem_cons]
      rw [ih hnd.2]
      constructor
      · intro h
        rcases h with h | h
        · refine Or.inr ⟨Or.inl h, ?_⟩
          rw [h]
          exact he
        · rcases h with h | ⟨h1, h2⟩
          · exact Or.inl h
          · exact Or.inr ⟨Or.inr h1, h2⟩
      · intro h
        rcases h with h | ⟨h1, h2⟩
        · exact Or.inr (Or.inl h)
        · rcases h1 with h1 | h1
          · exact Or.inl h1
          · exact Or.inr (Or.inr ⟨h1, h2⟩)

theorem upLookup_mem (l : List (String × UnitPos)) (id : String) (v : UnitPos)
    (h : upLookup l id = some v) : (id, v) ∈ l := by
  unfold upLookup at h
  cases hf : l.find? (fun e => e.1 = id) with
  | none =>
    rw [hf] at h
    exact absurd h (by simp)
  | some e =>
    rw [hf] at h
    injection h with heq
    have hmem := List.mem_of_find?_eq_some hf
    have hid : e.1 = id := by
      have := List.find?_some hf
      simpa using this
    have : e = (id, v) := by
      cases e
      simp_all
    rw [← this]
    exact hmem

theorem mem_upLookup (l : List (String × UnitPos)) (e : String × UnitPos)
    (hnd : (upKeys l).Nodup) (h : e ∈ l) : upLookup l e.1 = some e.2 := by
  induction l with
  | nil => exact absurd h (by simp)
  | cons e2 rest ih =>
    unfold upKeys at hnd
    simp only [List.map, List.nodup_cons] at hnd
    rcases List.mem_cons.mp h with h | h
    · rw [h]
      exact upLookup_cons_pos _ _ _ rfl
    · rw [upLookup_cons_neg _ _ _ (by
        intro hc
        apply hnd.1
        rw [hc]
        exact List.mem_map_of_mem Prod.fst h)]
      exact ih hnd.2 h

theorem upLookup_some_of_mem_keys (l : List (String × UnitPos)) (id : String)
    (h : id ∈ upKeys l) : ∃ v, upLookup l id = some v := by
  induction l with
  | nil => exact absurd h (by simp [upKeys])
  | cons e rest ih =>
    unfold upKeys at h ih
    simp only [List.map, List.mem_cons] at h
    by_cases he : e.1 = id
    · exact ⟨e.2, upLookup_cons_pos _ _ _ he⟩
    · rcases h with h | h
      · exact absurd h.symm he
      · rw [upLookup_cons_neg _ _ _ he]
        exact ih h

theorem mem_upDelete (l : List (String × UnitPos)) (id : String)
    (e : String × UnitPos) (h : e ∈ upDelete l id) : e ∈ l := by
  induction l with
  | nil => exact absurd h (by simp [upDelete])
  | cons e2 rest ih =>
    unfold upDelete at h
    by_cases he : e2.1 = id
    · rw [if_pos he] at h
      exact List.mem_cons_of_mem _ h
    · rw [if_neg he] at h
      rcases List.mem_cons.mp h with h | h
      · rw [h]
        exact List.mem_cons_self _ _
      · exact List.mem_cons_of_mem _ (ih h)

theorem upDelete_keys_sublist (l : List (String × UnitPos)) (id : String) :
    (upKeys (upDelete l id)).Sublist (upKeys l) := by
  induction l with
  | nil => simp [upDelete, upKeys]
  | cons e rest ih =>
    unfold upDelete upKeys
    by_cases he : e.1 = id
    · rw [if_pos he]
      simp only [List.map]
      exact List.sublist_cons_self _ _
    · rw [if_neg he]
      show (upKeys (e :: upDelete rest id)).Sublist _
      unfold upKeys at ih ⊢
      simp only [List.map]
      exact ih.cons₂ _

theorem mem_upDelete_ne (l : List (String × UnitPos)) (id : String)
    (hnd : (upKeys l).Nodup) (e : String × UnitPos) (h : e ∈ upDelete l id) :
    e ∈ l ∧ e.1 ≠ id := by
  induction l with
  | nil => exact absurd h (by simp [upDelete])
  | cons e2 rest ih =>
    unfold upKeys at hnd
    simp only [List.map, List.nodup_cons] at hnd
    unfold upDelete at h
    by_cases he : e2.1 = id
    · rw [if_pos he] at h
      refine ⟨List.mem_cons_of_mem _ h, ?_⟩
      intro hc
      apply hnd.1
      rw [he, ← hc]
      exact List.mem_map_of_mem Prod.fst h
    · rw [if_neg he] at h
      rcases List.mem_cons.mp h with h | h
      · rw [h]
        exact ⟨List.mem_cons_self _ _, he⟩
      · obtain ⟨h1, h2⟩ := ih hnd.2 h
        exact ⟨List.mem_cons_of_mem _ h1, h2⟩

theorem upLookup_upDelete_self (l : List (String × UnitPos)) (id : String)
    (hnd : (upKeys l).Nodup) : upLookup (upDelete l id) id = none := by
  have hf : List.find? (fun e => decide (e.1 = id)) (upDelete l id) = none := by
    rw [List.find?_eq_none]
    intro e he hc
    have := mem_upDelete_ne l id hnd e he
    exact this.2 (by simpa using hc)
  unfold upLookup
  rw [hf]

theorem upLookup_upDelete_ne (l : List (String × UnitPos)) (id k : String)
    (hk : k ≠ id) : upLookup (upDelete l id) k = upLookup l k := by
  induction l with
  | nil => rfl
  | cons e rest ih =>
    unfold upDelete
    by_cases he : e.1 = id
    · rw [if_pos he, upLookup_cons_neg _ _ _ (by rw [he]; exact fun hc => hk hc.symm)]
    · rw [if_neg he]
      by_cases hek : e.1 = k
      · rw [upLookup_cons_pos _ _ _ hek, upLookup_cons_pos _ _ _ hek]
      · rw [upLookup_cons_neg _ _ _ hek, upLookup_cons_neg _ _ _ hek, ih]

theorem upLookup_filter_kept (l : List (String × UnitPos))
    (p : String × UnitPos → Bool) (k : String) (v : UnitPos)
    (h : upLookup l k = some v) (hp : p (k, v) = true) :
    upLookup (l.filter p) k = some v := by
  induction l with
  | nil => exact absurd h (by simp [upLookup])
  | cons e rest ih =>
    by_cases he : e.1 = k
    · rw [upLookup_cons_pos _ _ _ he] at h
      injection h with heq
      have hek : e = (k, v) := by
        cases e
        simp_all
      rw [List.filter_cons, if_pos (by rw [hek]; exact hp)]
      rw [upLookup_cons_pos _ _ _ he, heq]
    · rw [upLookup_cons_neg _ _ _ he] at h
      rw [List.filter_cons]
      by_cases hpe : p e = true
      · rw [if_pos hpe, upLookup_cons_neg _ _ _ he]
        exact ih h
      · rw [if_neg hpe]
        exact ih h

theorem upLookup_filter_dropped (l : List (String × UnitPos))
    (p : String × UnitPos → Bool) (k : String) (v : UnitPos)
    (hnd : (upKeys l).Nodup) (h : upLookup l k = some v) (hp : p (k, v) = false) :
    upLookup (l.filter p) k = none := by
  induction l with
  | nil => exact absurd h (by simp [upLookup])
  | cons e rest ih =>
    unfold upKeys at hnd
    simp only [List.map, List.nodup_cons] at hnd
    by_cases he : e.1 = k
    · rw [upLookup_cons_pos _ _ _ he] at h
      injection h with heq
      have hek : e = (k, v) := by
        cases e
        simp_all
      rw [List.filter_cons, if_neg (by rw [hek, hp]; exact Bool.false_ne_true)]
      have hf : List.find? (fun e => decide (e.1 = k)) (List.filter p rest) = none := by
        rw [List.find?_eq_none]
        intro e2 he2 hc
        apply hnd.1
        have he2m := List.mem_of_mem_filter he2
        rw [he, ← show e2.1 = k by simpa using hc]
        exact List.mem_map_of_mem Prod.fst he2m
      unfold upLookup
      rw [hf]
    · rw [upLookup_cons_neg _ _ _ he] at h
      rw [List.filter_cons]
      by_cases hpe : p e = true
      · rw [if_pos hpe, upLookup_cons_neg _ _ _ he]
        exact ih hnd.2 h
      · rw [if_neg hpe]
        exact ih hnd.2 h

theorem filter_keys_sublist (l : List (String × UnitPos))
    (p : String × UnitPos → Bool) :
    (upKeys (l.filter p)).Sublist (upKeys l) := by
  unfold upKeys
  exact (List.filter_sublist l).map Prod.fst

/-! ## World mutator lemmas -/

theorem vacate_of_none (w : World) (cur : UnitPos)
    (h : findMap w.maps cur.mapId = none) : vacateCurrent w cur = w := by
  unfold vacateCurrent
  rw [h]

theorem vacate_of_some (w : World) (cur : UnitPos) (mcur : GameMap)
    (h : findMap w.maps cur.mapId = some mcur) :
    (vacateCurrent w cur).maps =
      mapsUpdate w.maps cur.mapId
        (fun m => (m.removeUnitAt cur.position.x cur.position.y).1) := by
  unfold vacateCurrent
  rw [h]

theorem vacate_unitPositions (w : World) (cur : UnitPos) :
    (vacateCurrent w cur).unitPositions = w.unitPositions := by
  unfold vacateCurrent
  cases findMap w.maps cur.mapId <;> rfl

theorem findMap_vacate_of_some (w : World) (cur : UnitPos) (mcur : GameMap)
    (h : findMap w.maps cur.mapId = some mcur) (k : String) :
    findMap (vacateCurrent w cur).maps k =
      if k = cur.mapId
      then some ((mcur.removeUnitAt cur.position.x cur.position.y).1)
      else findMap w.maps k := by
  rw [vacate_of_some w cur mcur h]
  rw [findMap_mapsUpdate _ _ _ (fun m _ => removeUnitAt_name m _ _) k]
  by_cases hk : k = cur.mapId
  · rw [if_pos hk, if_pos hk, h]
    rfl
  · rw [if_neg hk, if_neg hk]

theorem strTruthy_of_ne (id : String) (h : id ≠ "") :
    strTruthy (some id) = true := by
  unfold strTruthy
  simpa using h

theorem canPlace_false_of_occupied (m : GameMap) (x y : Int) (c : MapCell)
    (hcell : m.getCell x y = some c) (id : String) (hocc : c.occupiedBy = some id)
    (hid : id ≠ "") : m.canPlaceUnitAt x y = false := by
  unfold GameMap.canPlaceUnitAt
  rw [hcell]
  show (!(c.properties.movementBlocked.getD false) && !(strTruthy c.occupiedBy)) = false
  rw [hocc, strTruthy_of_ne id hid]
  simp

/-! ## C10: a unit cannot be re-placed or moved onto its own cell -/

/-- C10: when a unit is tracked at a cell it actually occupies (with a
truthy, i.e. nonempty, id), re-placing it at its own map and position via
`setUnitPosition` and moving it onto its own coordinates via `moveUnit`
both fail and leave the world unchanged, because the destination
occupancy check counts the unit itself as a blocker. -/
theorem c10_self_move_blocked (w : World) (id mId : String) (p : Position)
    (hid : id ≠ "")
    (htrack : upLookup w.unitPositions id = some ⟨mId, p⟩)
    (m : GameMap) (hmap : findMap w.maps mId = some m)
    (c : MapCell) (hcell : m.getCell p.x p.y = some c)
    (hocc : c.occupiedBy = some id) :
    w.setUnitPosition id mId p = (w, false) ∧
      w.moveUnit id p.x p.y = (w, false) := by
  have hcp : m.canPlaceUnitAt p.x p.y = false :=
    canPlace_false_of_occupied m p.x p.y c hcell id hocc hid
  constructor
  · unfold World.setUnitPosition
    rw [hmap]
    show (if ¬(m.canPlaceUnitAt p.x p.y = true) then (w, false) else _) = (w, false)
    rw [if_pos (by rw [hcp]; exact Bool.false_ne_true)]
  · unfold World.moveUnit
    rw [htrack]
    show (match findMap w.maps mId with
      | none => (w, false)
      | some map => _) = (w, false)
    rw [hmap]
    show (if ¬(m.canPlaceUnitAt p.x p.y = true) then (w, false) else _) = (w, false)
    rw [if_pos (by rw [hcp]; exact Bool.false_ne_true)]

/-- C10 witness: a 3x3 world with one tracked unit at (0,0). -/
theorem c10_witness :
    (runOps World.empty [WOp.addMap (mkMap 3 3 "A" ⟨none, none, none⟩),
        WOp.setUnitPosition "u1" "A" ⟨0, 0, none⟩]).setUnitPosition "u1" "A"
        ⟨0, 0, none⟩ =
      (runOps World.empty [WOp.addMap (mkMap 3 3 "A" ⟨none, none, none⟩),
        WOp.setUnitPosition "u1" "A" ⟨0, 0, none⟩], false) ∧
    (runOps World.empty [WOp.addMap (mkMap 3 3 "A" ⟨none, none, none⟩),
        WOp.setUnitPosition "u1" "A" ⟨0, 0, none⟩]).moveUnit "u1" 0 0 =
      (runOps World.empty [WOp.addMap (mkMap 3 3 "A" ⟨none, none, none⟩),
        WOp.setUnitPosition "u1" "A" ⟨0, 0, none⟩], false) :=
  c10_self_move_blocked _ "u1" "A" ⟨0, 0, none⟩ (by decide) (by decide)
    (((mkMap 3 3 "A" ⟨none, none, none⟩).placeUnit "u1" 0 0).1) (by decide)
    (setOcc "u1" (createDefaultCell (mkMapConfig ⟨none, none, none⟩)))
    (by decide) (by decide)

theorem c2_moveUnit_atomic (w : World) (id : String) (x y : Int) :
    (w.moveUnit id x y).2 = false → (w.moveUnit id x y).1 = w := by
  cases hcur : upLookup w.unitPositions id with
  | none =>
    simp only [World.moveUnit, hcur]
    intro _
    trivial
  | some cur =>
    cases hfm : findMap w.maps cur.mapId with
    | none =>
      simp only [World.moveUnit, hcur, hfm]
      intro _
      trivial
    | some map =>
      by_cases hcp : map.canPlaceUnitAt x y = true
      · have hpr : ((map.removeUnitAt cur.position.x cur.position.y).1.placeUnit
            id x y).2 = true := by
          rw [placeUnit_snd]
          exact canPlace_removeUnitAt map cur.position.x cur.position.y x y hcp
        simp only [World.moveUnit, hcur, hfm, hcp, hpr]
        simp
      · have hcp2 : map.canPlaceUnitAt x y = false := by
          revert hcp
          cases map.canPlaceUnitAt x y <;> simp
        simp only [World.moveUnit, hcur, hfm, hcp2]
        intro _
        trivial

theorem c2_moveUnitToMap_atomic (w : World) (id mId : String) (x y : Int) :
    (w.moveUnitToMap id mId x y).2 = false → (w.moveUnitToMap id mId x y).1 = w := by
  cases hcur : upLookup w.unitPositions id with
  | none =>
    simp only [World.moveUnitToMap, hcur]
    intro _
    trivial
  | some cur =>
    cases hfm : findMap w.maps mId with
    | none =>
      simp only [World.moveUnitToMap, hcur, hfm]
      intro _
      trivial
    | some newMap =>
      by_cases hcp : newMap.canPlaceUnitAt x y = true
      · have hkey : ∃ nm1, findMap (vacateCurrent w cur).maps mId = some nm1 ∧
            nm1.canPlaceUnitAt x y = true := by
          cases hfc : findMap w.maps cur.mapId with
          | none =>
            rw [vacate_of_none w cur hfc]
            exact ⟨newMap, hfm, hcp⟩
          | some mcur =>
            rw [findMap_vacate_of_some w cur mcur hfc mId]
            by_cases hk : mId = cur.mapId
            · rw [if_pos hk]
              have hsame : mcur = newMap := by
                rw [hk] at hfm
                rw [hfm] at hfc
                injection hfc with heq
                exact heq.symm
              refine ⟨_, rfl, ?_⟩
              rw [hsame]
              exact canPlace_removeUnitAt newMap cur.position.x cur.position.y x y hcp
            · rw [if_neg hk]
              exact ⟨newMap, hfm, hcp⟩
        obtain ⟨nm1, hnm1, hcp1⟩ := hkey
        have hpr : (nm1.placeUnit id x y).2 = true := by
          rw [placeUnit_snd]
          exact hcp1
        simp only [World.moveUnitToMap, hcur, hfm, hcp, hnm1, hpr]
        simp
      · have hcp2 : newMap.canPlaceUnitAt x y = false := by
          revert hcp
          cases newMap.canPlaceUnitAt x y <;> simp
        simp only [World.moveUnitToMap, hcur, hfm, hcp2]
        intro _
        trivial

/-- C2: whenever `moveUnit` or `moveUnitToMap` returns false, the entire
world state (all maps' cells, occupants included, and the tracking table)
is exactly what it was before the call — failed moves are atomic. -/
theorem c2_failed_moves_atomic (w : World) (id mId : String) (x y : Int) :
    ((w.moveUnit id x y).2 = false → (w.moveUnit id x y).1 = w) ∧
    ((w.moveUnitToMap id mId x y).2 = false → (w.moveUnitToMap id mId x y).1 = w) :=
  ⟨c2_moveUnit_atomic w id x y, c2_moveUnitToMap_atomic w id mId x y⟩

/-- C2 witness: a move onto an occupied cell and a move to a missing map
both fail and leave the concrete world unchanged. -/
theorem c2_witness :
    ((runOps World.empty [WOp.addMap (mkMap 3 3 "A" ⟨none, none, none⟩),
        WOp.setUnitPosition "u1" "A" ⟨0, 0, none⟩,
        WOp.setUnitPosition "u2" "A" ⟨1, 1, none⟩]).moveUnit "u1" 1 1).1 =
      runOps World.empty [WOp.addMap (mkMap 3 3 "A" ⟨none, none, none⟩),
        WOp.setUnitPosition "u1" "A" ⟨0, 0, none⟩,
        WOp.setUnitPosition "u2" "A" ⟨1, 1, none⟩] ∧
    ((runOps World.empty [WOp.addMap (mkMap 3 3 "A" ⟨none, none, none⟩),
        WOp.setUnitPosition "u1" "A" ⟨0, 0, none⟩,
        WOp.setUnitPosition "u2" "A" ⟨1, 1, none⟩]).moveUnitToMap "u1" "B" 0 0).1 =
      runOps World.empty [WOp.addMap (mkMap 3 3 "A" ⟨none, none, none⟩),
        WOp.setUnitPosition "u1" "A" ⟨0, 0, none⟩,
        WOp.setUnitPosition "u2" "A" ⟨1, 1, none⟩] :=
  ⟨(c2_failed_moves_atomic (runOps World.empty
      [WOp.addMap (mkMap 3 3 "A" ⟨none, none, none⟩),
       WOp.setUnitPosition "u1" "A" ⟨0, 0, none⟩,
       WOp.setUnitPosition "u2" "A" ⟨1, 1, none⟩]) "u1" "B" 1 1).1 (by decide),
   (c2_failed_moves_atomic (runOps World.empty
      [WOp.addMap (mkMap 3 3 "A" ⟨none, none, none⟩),
       WOp.setUnitPosition "u1" "A" ⟨0, 0, none⟩,
       WOp.setUnitPosition "u2" "A" ⟨1, 1, none⟩]) "u1" "B" 0 0).2 (by decide)⟩

/-- C3: `removeMap` fails and changes nothing when no map of the name
exists; when one exists it succeeds, purges exactly the tracked entries
whose map id equals the name (their `getUnitPosition` becomes absent),
keeps every entity tracked on another map unchanged, and removes the map
itself (no map of that name remains; other maps survive). -/
theorem c3_removeMap_cascade (w : World) (n : String)
    (hknd : (upKeys w.unitPositions).Nodup)
    (hmnd : (w.maps.map GameMap.name).Nodup) :
    (findMap w.maps n = none → w.removeMap n = (w, false)) ∧
    (∀ m, findMap w.maps n = some m →
      (w.removeMap n).2 = true ∧
      (w.removeMap n).1.unitPositions =
        w.unitPositions.filter (fun e => e.2.mapId ≠ n) ∧
      (∀ id up, upLookup w.unitPositions id = some up → up.mapId = n →
        (w.removeMap n).1.getUnitPosition id = none) ∧
      (∀ id up, upLookup w.unitPositions id = some up → up.mapId ≠ n →
        (w.removeMap n).1.getUnitPosition id = some up) ∧
      findMap (w.removeMap n).1.maps n = none ∧
      (∀ m2 ∈ w.maps, m2.name ≠ n → m2 ∈ (w.removeMap n).1.maps)) := by
  constructor
  · intro h
    unfold World.removeMap
    rw [h]
  · intro m hm
    have heq : w.removeMap n =
        (⟨eraseMap w.maps n,
          w.unitPositions.filter (fun e => e.2.mapId ≠ n)⟩, true) := by
      unfold World.removeMap
      rw [hm]
    refine ⟨by rw [heq], by rw [heq], ?_, ?_, ?_, ?_⟩
    · intro id up hup hmap
      unfold World.getUnitPosition
      rw [heq]
      exact upLookup_filter_dropped w.unitPositions _ id up hknd hup
        (by simp [hmap])
    · intro id up hup hmap
      unfold World.getUnitPosition
      rw [heq]
      exact upLookup_filter_kept w.unitPositions _ id up hup (by simp [hmap])
    · rw [heq]
      exact findMap_eraseMap_self w.maps n hmnd
    · intro m2 hm2 hne
      rw [heq]
      exact mem_eraseMap w.maps n m2 hm2 hne

/-- C3 witness: removing map "A" from a two-map world purges the unit on
"A", keeps the unit on "B", and removes the map itself. -/
theorem c3_witness :
    ((runOps World.empty [WOp.addMap (mkMap 3 3 "A" ⟨none, none, none⟩),
        WOp.addMap (mkMap 2 2 "B" ⟨none, none, none⟩),
        WOp.setUnitPosition "u1" "A" ⟨0, 0, none⟩,
        WOp.setUnitPosition "u2" "B" ⟨0, 0, none⟩]).removeMap "A").2 = true ∧
    ((runOps World.empty [WOp.addMap (mkMap 3 3 "A" ⟨none, none, none⟩),
        WOp.addMap (mkMap 2 2 "B" ⟨none, none, none⟩),
        WOp.setUnitPosition "u1" "A" ⟨0, 0, none⟩,
        WOp.setUnitPosition "u2" "B" ⟨0, 0, none⟩]).removeMap "A").1.unitPositions =
      (runOps World.empty [WOp.addMap (mkMap 3 3 "A" ⟨none, none, none⟩),
        WOp.addMap (mkMap 2 2 "B" ⟨none, none, none⟩),
        WOp.setUnitPosition "u1" "A" ⟨0, 0, none⟩,
        WOp.setUnitPosition "u2" "B" ⟨0, 0, none⟩]).unitPositions.filter
        (fun e => e.2.mapId ≠ "A") ∧
    findMap ((runOps World.empty [WOp.addMap (mkMap 3 3 "A" ⟨none, none, none⟩),
        WOp.addMap (mkMap 2 2 "B" ⟨none, none, none⟩),
        WOp.setUnitPosition "u1" "A" ⟨0, 0, none⟩,
        WOp.setUnitPosition "u2" "B" ⟨0, 0, none⟩]).removeMap "A").1.maps "A" =
      none := by
  have h := (c3_removeMap_cascade (runOps World.empty
      [WOp.addMap (mkMap 3 3 "A" ⟨none, none, none⟩),
       WOp.addMap (mkMap 2 2 "B" ⟨none, none, none⟩),
       WOp.setUnitPosition "u1" "A" ⟨0, 0, none⟩,
       WOp.setUnitPosition "u2" "B" ⟨0, 0, none⟩]) "A" (by decide) (by decide)).2
    (((mkMap 3 3 "A" ⟨none, none, none⟩).placeUnit "u1" 0 0).1) (by decide)
  exact ⟨h.1, h.2.1, h.2.2.2.2.1⟩

/-- C10 counterexample: the empty-string entity id defeats the occupancy
check (`if (cell.occupiedBy)` is falsy for `""`): in a reachable world
where `""` is tracked at (0,0) of map "A", re-placing it onto its own
cell returns true, not false, and the same move succeeds via `moveUnit`. -/
theorem c10_counterexample :
    upLookup (runOps World.empty [WOp.addMap (mkMap 3 3 "A" ⟨none, none, none⟩),
        WOp.setUnitPosition "" "A" ⟨0, 0, none⟩]).unitPositions "" =
      some ⟨"A", ⟨0, 0, none⟩⟩ ∧
    ((runOps World.empty [WOp.addMap (mkMap 3 3 "A" ⟨none, none, none⟩),
        WOp.setUnitPosition "" "A" ⟨0, 0, none⟩]).setUnitPosition "" "A"
        ⟨0, 0, none⟩).2 = true ∧
    ((runOps World.empty [WOp.addMap (mkMap 3 3 "A" ⟨none, none, none⟩),
        WOp.setUnitPosition "" "A" ⟨0, 0, none⟩]).moveUnit "" 0 0).2 = true := by
  refine ⟨by decide, by decide, by decide⟩

/-! ## C1: the cross-map consistency invariant -/

theorem getCell_removeUnitAt_some (m : GameMap) (x y : Int) (c : MapCell)
    (h : m.getCell x y = some c) (a b : Int) :
    ((m.removeUnitAt x y).1).getCell a b =
      if m.wrapX a = m.wrapX x ∧ m.wrapY b = m.wrapY y
      then (m.getCell a b).map clearOcc else m.getCell a b := by
  rw [removeUnitAt_of_some m x y c h]
  show (m.modifyCell x y clearOcc).getCell a b = _
  rw [getCell_modifyCell]

theorem getCell_placeUnit_some (m : GameMap) (id : String) (x y : Int)
    (h : m.canPlaceUnitAt x y = true) (a b : Int) :
    ((m.placeUnit id x y).1).getCell a b =
      if m.wrapX a = m.wrapX x ∧ m.wrapY b = m.wrapY y
      then (m.getCell a b).map (setOcc id) else m.getCell a b := by
  rw [placeUnit_of_canPlace m id x y h]
  show (m.modifyCell x y (setOcc id)).getCell a b = _
  rw [getCell_modifyCell]

theorem getCell_eq_of_wrap (m : GameMap) (a b x y : Int)
    (hwx : m.wrapX a = m.wrapX x) (hwy : m.wrapY b = m.wrapY y)
    (hva : m.isValidCoordinate a b = true)
    (hvx : m.isValidCoordinate x y = true) :
    m.getCell a b = m.getCell x y := by
  unfold GameMap.getCell
  rw [if_pos hva, if_pos hvx, hwx, hwy]

theorem findMap_some_name (l : List GameMap) (k : String) (m : GameMap)
    (h : findMap l k = some m) : m.name = k := by
  unfold findMap at h
  have := List.find?_some h
  simpa using this

theorem trackedOk_vacate (w : World) (id : String) (cur : UnitPos)
    (hcur : TrackedOk w (id, cur))
    (e : String × UnitPos) (he : TrackedOk w e) (hne : e.1 ≠ id) :
    TrackedOk (vacateCurrent w cur) e := by
  obtain ⟨mcur, hmcur, ccur, hccur, hoccur⟩ := hcur
  obtain ⟨me, hme, ce, hce, hocce⟩ := he
  unfold TrackedOk
  rw [findMap_vacate_of_some w cur mcur hmcur]
  by_cases hk : e.2.mapId = cur.mapId
  · rw [if_pos hk]
    have hmeq : me = mcur := by
      rw [hk] at hme
      rw [hmcur] at hme
      injection hme with heq
      exact heq.symm
    rw [hmeq] at hce
    refine ⟨_, rfl, ?_⟩
    rw [getCell_removeUnitAt_some mcur cur.position.x cur.position.y ccur hccur]
    by_cases hcond : mcur.wrapX e.2.position.x = mcur.wrapX cur.position.x ∧
        mcur.wrapY e.2.position.y = mcur.wrapY cur.position.y
    · exfalso
      have hsame : mcur.getCell e.2.position.x e.2.position.y =
          mcur.getCell cur.position.x cur.position.y :=
        getCell_eq_of_wrap mcur _ _ _ _ hcond.1 hcond.2
          (getCell_some_valid mcur _ _ ce hce)
          (getCell_some_valid mcur _ _ ccur hccur)
      rw [hce, hccur] at hsame
      injection hsame with heq
      rw [heq] at hocce
      rw [hoccur] at hocce
      injection hocce with heq2
      exact hne heq2.symm
    · rw [if_neg hcond]
      exact ⟨ce, hce, hocce⟩
  · rw [if_neg hk]
    exact ⟨me, hme, ce, hce, hocce⟩

theorem trackedOk_place (w1 : World) (u : List (String × UnitPos))
    (mapId : String) (map1 : GameMap)
    (hm1 : findMap w1.maps mapId = some map1)
    (id : String) (x y : Int) (hcp : map1.canPlaceUnitAt x y = true)
    (e : String × UnitPos) (he : TrackedOk w1 e) (hne : e.1 ≠ "") :
    TrackedOk ⟨mapsUpdate w1.maps mapId (fun _ => (map1.placeUnit id x y).1), u⟩ e := by
  obtain ⟨me, hme, ce, hce, hocce⟩ := he
  obtain ⟨cxy, hcxy, hblk, hoccxy⟩ := (canPlace_iff map1 x y).mp hcp
  unfold TrackedOk
  show ∃ m, findMap (mapsUpdate w1.maps mapId _) e.2.mapId = some m ∧ _
  rw [findMap_mapsUpdate _ _ _ (fun m hm => by
    rw [placeUnit_name map1 id x y, findMap_some_name _ _ _ hm1, hm]) e.2.mapId]
  by_cases hk : e.2.mapId = mapId
  · rw [if_pos hk, hm1]
    have hmeq : me = map1 := by
      rw [hk] at hme
      rw [hm1] at hme
      injection hme with heq
      exact heq.symm
    rw [hmeq] at hce
    refine ⟨_, rfl, ?_⟩
    show ∃ c, ((map1.placeUnit id x y).1).getCell e.2.position.x e.2.position.y =
      some c ∧ c.occupiedBy = some e.1
    rw [getCell_placeUnit_some map1 id x y hcp]
    by_cases hcond : map1.wrapX e.2.position.x = map1.wrapX x ∧
        map1.wrapY e.2.position.y = map1.wrapY y
    · exfalso
      have hsame : map1.getCell e.2.position.x e.2.position.y =
          map1.getCell x y :=
        getCell_eq_of_wrap map1 _ _ _ _ hcond.1 hcond.2
          (getCell_some_valid map1 _ _ ce hce)
          (getCell_some_valid map1 _ _ cxy hcxy)
      rw [hce, hcxy] at hsame
      injection hsame with heq
      rw [← heq, hocce, strTruthy_of_ne e.1 hne] at hoccxy
      exact absurd hoccxy (by decide)
    · rw [if_neg hcond]
      exact ⟨ce, hce, hocce⟩
  · rw [if_neg hk]
    exact ⟨me, hme, ce, hce, hocce⟩

theorem trackedOk_new (w1 : World) (u : List (String × UnitPos))
    (mapId : String) (map1 : GameMap)
    (hm1 : findMap w1.maps mapId = some map1)
    (id : String) (x y : Int) (z : Option Int)
    (hcp : map1.canPlaceUnitAt x y = true) :
    TrackedOk ⟨mapsUpdate w1.maps mapId (fun _ => (map1.placeUnit id x y).1), u⟩
      (id, ⟨mapId, ⟨x, y, z⟩⟩) := by
  obtain ⟨cxy, hcxy, _, _⟩ := (canPlace_iff map1 x y).mp hcp
  unfold TrackedOk
  show ∃ m, findMap (mapsUpdate w1.maps mapId _) mapId = some m ∧ _
  rw [findMap_mapsUpdate _ _ _ (fun m hm => by
    rw [placeUnit_name map1 id x y, findMap_some_name _ _ _ hm1, hm]) mapId,
    if_pos rfl, hm1]
  refine ⟨_, rfl, ?_⟩
  show ∃ c, ((map1.placeUnit id x y).1).getCell x y = some c ∧
    c.occupiedBy = some id
  rw [getCell_placeUnit_some map1 id x y hcp, if_pos ⟨rfl, rfl⟩, hcxy]
  exact ⟨setOcc id cxy, rfl, rfl⟩

theorem vacate_names (w : World) (cur : UnitPos) :
    (vacateCurrent w cur).maps.map GameMap.name = w.maps.map GameMap.name := by
  unfold vacateCurrent
  cases hfc : findMap w.maps cur.mapId with
  | none => rfl
  | some mcur =>
    exact mapsUpdate_names w.maps cur.mapId _ (fun m _ => removeUnitAt_name m _ _)

theorem mapsUpdate_cons_pos (m : GameMap) (rest : List GameMap) (n : String)
    (f : GameMap → GameMap) (h : m.name = n) :
    mapsUpdate (m :: rest) n f = f m :: rest := by
  rw [show mapsUpdate (m :: rest) n f =
    if m.name = n then f m :: rest else m :: mapsUpdate rest n f from rfl, if_pos h]

theorem mapsUpdate_cons_neg (m : GameMap) (rest : List GameMap) (n : String)
    (f : GameMap → GameMap) (h : ¬(m.name = n)) :
    mapsUpdate (m :: rest) n f = m :: mapsUpdate rest n f := by
  rw [show mapsUpdate (m :: rest) n f =
    if m.name = n then f m :: rest else m :: mapsUpdate rest n f from rfl, if_neg h]

theorem mapsUpdate_mapsUpdate (l : List GameMap) (n : String)
    (f g : GameMap → GameMap) (hf : ∀ m, m.name = n → (f m).name = m.name) :
    mapsUpdate (mapsUpdate l n f) n g = mapsUpdate l n (fun m => g (f m)) := by
  induction l with
  | nil => rfl
  | cons m rest ih =>
    by_cases hm : m.name = n
    · rw [mapsUpdate_cons_pos m rest n f hm,
        mapsUpdate_cons_pos (f m) rest n g (by rw [hf m hm]; exact hm),
        mapsUpdate_cons_pos m rest n _ hm]
    · rw [mapsUpdate_cons_neg m rest n f hm,
        mapsUpdate_cons_neg m (mapsUpdate rest n f) n g hm,
        mapsUpdate_cons_neg m rest n _ hm, ih]

theorem place_after_vacate (w : World) (cur : UnitPos) (mapId : String)
    (map : GameMap) (hfm : findMap w.maps mapId = some map) (x y : Int)
    (hcp : map.canPlaceUnitAt x y = true) :
    ∃ m1, findMap (vacateCurrent w cur).maps mapId = some m1 ∧
      m1.canPlaceUnitAt x y = true := by
  cases hfc : findMap w.maps cur.mapId with
  | none =>
    rw [vacate_of_none w cur hfc]
    exact ⟨map, hfm, hcp⟩
  | some mcur =>
    rw [findMap_vacate_of_some w cur mcur hfc mapId]
    by_cases hk : mapId = cur.mapId
    · rw [if_pos hk]
      have hsame : mcur = map := by
        rw [hk] at hfm
        rw [hfm] at hfc
        injection hfc with heq
        exact heq.symm
      refine ⟨_, rfl, ?_⟩
      rw [hsame]
      exact canPlace_removeUnitAt map cur.position.x cur.position.y x y hcp
    · rw [if_neg hk]
      exact ⟨map, hfm, hcp⟩

theorem trackedOk_maps_congr (w1 w2 : World) (e : String × UnitPos)
    (h : w1.maps = w2.maps) (ht : TrackedOk w1 e) : TrackedOk w2 e := by
  unfold TrackedOk at ht ⊢
  rw [← h]
  exact ht

theorem winv_after_place (w1 : World)
    (hkeys : (upKeys w1.unitPositions).Nodup)
    (hnames : (w1.maps.map GameMap.name).Nodup)
    (mapId : String) (map1 : GameMap) (hm1 : findMap w1.maps mapId = some map1)
    (id : String) (hid : id ≠ "")
    (hids : ∀ e ∈ w1.unitPositions, e.1 ≠ id → e.1 ≠ "")
    (hcons : ∀ e ∈ w1.unitPositions, e.1 ≠ id → TrackedOk w1 e)
    (x y : Int) (z : Option Int)
    (hcp : map1.canPlaceUnitAt x y = true) :
    WInv ⟨mapsUpdate w1.maps mapId (fun _ => (map1.placeUnit id x y).1),
      upSet w1.unitPositions id ⟨mapId, ⟨x, y, z⟩⟩⟩ := by
  refine ⟨?_, ?_, ?_, ?_⟩
  · exact upSet_nodup _ _ _ hkeys
  · show ((mapsUpdate w1.maps mapId _).map GameMap.name).Nodup
    rw [mapsUpdate_names _ _ _ (fun m hm => by
      rw [placeUnit_name map1 id x y, findMap_some_name _ _ _ hm1, hm])]
    exact hnames
  · intro e he
    rcases (mem_upSet_iff w1.unitPositions id _ hkeys e).mp he with he2 | ⟨he2, hne⟩
    · rw [he2]
      exact hid
    · exact hids e he2 hne
  · intro e he
    rcases (mem_upSet_iff w1.unitPositions id _ hkeys e).mp he with he2 | ⟨he2, hne⟩
    · rw [he2]
      exact trackedOk_new w1 _ mapId map1 hm1 id x y z hcp
    · exact trackedOk_place w1 _ mapId map1 hm1 id x y hcp e (hcons e he2 hne)
        (hids e he2 hne)

theorem upLookup_none_of_ids (l : List (String × UnitPos))
    (hids : ∀ e ∈ l, e.1 ≠ "") : upLookup l "" = none := by
  have hf : List.find? (fun e => decide (e.1 = "")) l = none := by
    rw [List.find?_eq_none]
    intro e he hc
    exact hids e he (by simpa using hc)
  unfold upLookup
  rw [hf]

theorem winv_empty : WInv World.empty := by
  refine ⟨by simp [World.empty, upKeys], by simp [World.empty], ?_, ?_⟩
  · intro e he
    exact absurd he (by simp [World.empty])
  · intro e he
    exact absurd he (by simp [World.empty])

theorem winv_clear (w : World) : WInv w.clearAll := by
  refine ⟨by simp [World.clearAll, upKeys], by simp [World.clearAll], ?_, ?_⟩
  · intro e he
    exact absurd he (by simp [World.clearAll])
  · intro e he
    exact absurd he (by simp [World.clearAll])

theorem winv_addMap (w : World) (m : GameMap) (h : WInv w) :
    WInv (w.addMap m).1 := by
  obtain ⟨hknd, hmnd, hids, hcons⟩ := h
  unfold World.addMap
  by_cases hdup : w.maps.any (fun m2 => m2.name = m.name) = true
  · rw [if_pos hdup]
    exact ⟨hknd, hmnd, hids, hcons⟩
  · rw [if_neg hdup]
    refine ⟨hknd, ?_, hids, ?_⟩
    · show ((w.maps ++ [m]).map GameMap.name).Nodup
      rw [List.map_append]
      rw [List.nodup_append]
      refine ⟨hmnd, List.nodup_singleton _, ?_⟩
      intro nm hnm hnm2
      simp only [List.map_cons, List.map_nil, List.mem_singleton] at hnm2
      rw [List.mem_map] at hnm
      obtain ⟨m2, hm2, hm2n⟩ := hnm
      apply hdup
      rw [List.any_eq_true]
      exact ⟨m2, hm2, by simp [hm2n, hnm2]⟩
    · intro e he
      obtain ⟨me, hme, ce, hce, hocce⟩ := hcons e he
      refine ⟨me, ?_, ce, hce, hocce⟩
      show findMap (w.maps ++ [m]) e.2.mapId = some me
      rw [findMap_append_of_some w.maps m e.2.mapId (by rw [hme]; rfl)]
      exact hme

theorem winv_removeMap (w : World) (n : String) (h : WInv w) :
    WInv (w.removeMap n).1 := by
  obtain ⟨hknd, hmnd, hids, hcons⟩ := h
  cases hfm : findMap w.maps n with
  | none =>
    unfold World.removeMap
    rw [hfm]
    exact ⟨hknd, hmnd, hids, hcons⟩
  | some m =>
    have heq : w.removeMap n =
        (⟨eraseMap w.maps n,
          w.unitPositions.filter (fun e => e.2.mapId ≠ n)⟩, true) := by
      unfold World.removeMap
      rw [hfm]
    rw [heq]
    refine ⟨?_, ?_, ?_, ?_⟩
    · exact (filter_keys_sublist w.unitPositions _).nodup hknd
    · exact (eraseMap_names_sublist w.maps n).nodup hmnd
    · intro e he
      exact hids e (List.mem_of_mem_filter he)
    · intro e he
      have hmem := List.mem_of_mem_filter he
      have hpred : e.2.mapId ≠ n := by
        have := List.of_mem_filter he
        simpa using this
      obtain ⟨me, hme, ce, hce, hocce⟩ := hcons e hmem
      refine ⟨me, ?_, ce, hce, hocce⟩
      show findMap (eraseMap w.maps n) e.2.mapId = some me
      rw [findMap_eraseMap_ne w.maps n e.2.mapId hpred]
      exact hme

theorem winv_removeUnit (w : World) (id : String) (h : WInv w) :
    WInv (w.removeUnit id).1 := by
  obtain ⟨hknd, hmnd, hids, hcons⟩ := h
  cases hcur : upLookup w.unitPositions id with
  | none =>
    unfold World.removeUnit
    rw [hcur]
    exact ⟨hknd, hmnd, hids, hcons⟩
  | some cur =>
    have htrk : TrackedOk w (id, cur) := hcons (id, cur) (upLookup_mem _ _ _ hcur)
    have heq : w.removeUnit id =
        ({ vacateCurrent w cur with
            unitPositions := upDelete (vacateCurrent w cur).unitPositions id }, true) := by
      unfold World.removeUnit
      rw [hcur]
    rw [heq]
    refine ⟨?_, ?_, ?_, ?_⟩
    · show (upKeys (upDelete (vacateCurrent w cur).unitPositions id)).Nodup
      rw [vacate_unitPositions]
      exact (upDelete_keys_sublist w.unitPositions id).nodup hknd
    · show ((vacateCurrent w cur).maps.map GameMap.name).Nodup
      rw [vacate_names]
      exact hmnd
    · intro e he
      rw [show ({ vacateCurrent w cur with
          unitPositions := upDelete (vacateCurrent w cur).unitPositions id } :
          World).unitPositions = upDelete (vacateCurrent w cur).unitPositions id
        from rfl, vacate_unitPositions] at he
      exact hids e (mem_upDelete w.unitPositions id e he)
    · intro e he
      rw [show ({ vacateCurrent w cur with
          unitPositions := upDelete (vacateCurrent w cur).unitPositions id } :
          World).unitPositions = upDelete (vacateCurrent w cur).unitPositions id
        from rfl, vacate_unitPositions] at he
      obtain ⟨hmem, hne⟩ := mem_upDelete_ne w.unitPositions id hknd e he
      have ht1 : TrackedOk (vacateCurrent w cur) e :=
        trackedOk_vacate w id cur htrk e (hcons e hmem) hne
      exact trackedOk_maps_congr (vacateCurrent w cur) _ e rfl ht1

theorem winv_setUnitPosition (w : World) (id mapId : String) (pos : Position)
    (h : WInv w) (hid : id ≠ "") : WInv (w.setUnitPosition id mapId pos).1 := by
  obtain ⟨hknd, hmnd, hids, hcons⟩ := h
  cases hfm : findMap w.maps mapId with
  | none =>
    unfold World.setUnitPosition
    rw [hfm]
    exact ⟨hknd, hmnd, hids, hcons⟩
  | some map =>
    by_cases hcp : map.canPlaceUnitAt pos.x pos.y = true
    · cases hcur : upLookup w.unitPositions id with
      | none =>
        have hpr : (map.placeUnit id pos.x pos.y).2 = true := by
          rw [placeUnit_snd]
          exact hcp
        have heq : w.setUnitPosition id mapId pos =
            (⟨mapsUpdate w.maps mapId (fun _ => (map.placeUnit id pos.x pos.y).1),
              upSet w.unitPositions id ⟨mapId, pos⟩⟩, true) := by
          simp only [World.setUnitPosition, hfm, hcp, hcur, hpr]
          simp
        rw [heq]
        exact winv_after_place w hknd hmnd mapId map hfm id hid
          (fun e he _ => hids e he) (fun e he _ => hcons e he)
          pos.x pos.y pos.z hcp
      | some cur =>
        have htrk : TrackedOk w (id, cur) :=
          hcons (id, cur) (upLookup_mem _ _ _ hcur)
        obtain ⟨m1, hm1, hcp1⟩ :=
          place_after_vacate w cur mapId map hfm pos.x pos.y hcp
        have hpr : (m1.placeUnit id pos.x pos.y).2 = true := by
          rw [placeUnit_snd]
          exact hcp1
        have heq : w.setUnitPosition id mapId pos =
            (⟨mapsUpdate (vacateCurrent w cur).maps mapId
                (fun _ => (m1.placeUnit id pos.x pos.y).1),
              upSet (vacateCurrent w cur).unitPositions id ⟨mapId, pos⟩⟩, true) := by
          simp only [World.setUnitPosition, hfm, hcp, hcur, hm1, hpr]
          simp
        rw [heq]
        refine winv_after_place (vacateCurrent w cur) ?_ ?_ mapId m1 hm1
          id hid ?_ ?_ pos.x pos.y pos.z hcp1
        · rw [vacate_unitPositions]
          exact hknd
        · rw [vacate_names]
          exact hmnd
        · intro e he _
          rw [vacate_unitPositions] at he
          exact hids e he
        · intro e he hne
          rw [vacate_unitPositions] at he
          exact trackedOk_vacate w id cur htrk e (hcons e he) hne
    · have hcp2 : map.canPlaceUnitAt pos.x pos.y = false := by
        revert hcp
        cases map.canPlaceUnitAt pos.x pos.y <;> simp
      simp only [World.setUnitPosition, hfm, hcp2, Bool.false_eq_true,
        not_false_eq_true, if_true]
      exact ⟨hknd, hmnd, hids, hcons⟩

theorem winv_moveUnit (w : World) (id : String) (newX newY : Int)
    (h : WInv w) : WInv (w.moveUnit id newX newY).1 := by
  obtain ⟨hknd, hmnd, hids, hcons⟩ := h
  cases hcur : upLookup w.unitPositions id with
  | none =>
    unfold World.moveUnit
    rw [hcur]
    exact ⟨hknd, hmnd, hids, hcons⟩
  | some cur =>
    have hmem : (id, cur) ∈ w.unitPositions := upLookup_mem _ _ _ hcur
    have htrk : TrackedOk w (id, cur) := hcons (id, cur) hmem
    have hid : id ≠ "" := hids (id, cur) hmem
    obtain ⟨mcur, hfmc, ccur, hccur, hoccur⟩ := htrk
    by_cases hcp : mcur.canPlaceUnitAt newX newY = true
    · have hm1 : findMap (vacateCurrent w cur).maps cur.mapId =
          some ((mcur.removeUnitAt cur.position.x cur.position.y).1) := by
        rw [findMap_vacate_of_some w cur mcur hfmc cur.mapId, if_pos rfl]
      have hcp1 : ((mcur.removeUnitAt cur.position.x cur.position.y).1).canPlaceUnitAt
          newX newY = true :=
        canPlace_removeUnitAt mcur cur.position.x cur.position.y newX newY hcp
      have hpr : (((mcur.removeUnitAt cur.position.x cur.position.y).1).placeUnit
          id newX newY).2 = true := by
        rw [placeUnit_snd]
        exact hcp1
      have heq : w.moveUnit id newX newY =
          (⟨mapsUpdate w.maps cur.mapId
              (fun _ => (((mcur.removeUnitAt cur.position.x cur.position.y).1).placeUnit
                id newX newY).1),
            upSet w.unitPositions id ⟨cur.mapId, ⟨newX, newY, cur.position.z⟩⟩⟩,
           true) := by
        simp only [World.moveUnit, hcur, hfmc, hcp, hpr]
        simp
      rw [heq]
      have key := winv_after_place (vacateCurrent w cur)
        (by rw [vacate_unitPositions]; exact hknd)
        (by rw [vacate_names]; exact hmnd)
        cur.mapId ((mcur.removeUnitAt cur.position.x cur.position.y).1) hm1 id hid
        (by
          intro e he _
          rw [vacate_unitPositions] at he
          exact hids e he)
        (by
          intro e he hne
          rw [vacate_unitPositions] at he
          exact trackedOk_vacate w id cur (hcons (id, cur) hmem) e (hcons e he) hne)
        newX newY cur.position.z hcp1
      have hmapseq : mapsUpdate (vacateCurrent w cur).maps cur.mapId
          (fun _ => (((mcur.removeUnitAt cur.position.x cur.position.y).1).placeUnit
            id newX newY).1) =
          mapsUpdate w.maps cur.mapId
          (fun _ => (((mcur.removeUnitAt cur.position.x cur.position.y).1).placeUnit
            id newX newY).1) := by
        rw [vacate_of_some w cur mcur hfmc,
          mapsUpdate_mapsUpdate w.maps cur.mapId _ _
            (fun m _ => removeUnitAt_name m _ _)]
      rw [hmapseq, vacate_unitPositions] at key
      exact key
    · have hcp2 : mcur.canPlaceUnitAt newX newY = false := by
        revert hcp
        cases mcur.canPlaceUnitAt newX newY <;> simp
      simp only [World.moveUnit, hcur, hfmc, hcp2, Bool.false_eq_true,
        not_false_eq_true, if_true]
      exact ⟨hknd, hmnd, hids, hcons⟩

theorem winv_moveUnitToMap (w : World) (id newMapId : String) (newX newY : Int)
    (h : WInv w) : WInv (w.moveUnitToMap id newMapId newX newY).1 := by
  obtain ⟨hknd, hmnd, hids, hcons⟩ := h
  cases hcur : upLookup w.unitPositions id with
  | none =>
    unfold World.moveUnitToMap
    rw [hcur]
    exact ⟨hknd, hmnd, hids, hcons⟩
  | some cur =>
    have hmem : (id, cur) ∈ w.unitPositions := upLookup_mem _ _ _ hcur
    have htrk : TrackedOk w (id, cur) := hcons (id, cur) hmem
    have hid : id ≠ "" := hids (id, cur) hmem
    cases hfm : findMap w.maps newMapId with
    | none =>
      simp only [World.moveUnitToMap, hcur, hfm]
      exact ⟨hknd, hmnd, hids, hcons⟩
    | some newMap =>
      by_cases hcp : newMap.canPlaceUnitAt newX newY = true
      · obtain ⟨m1, hm1, hcp1⟩ :=
          place_after_vacate w cur newMapId newMap hfm newX newY hcp
        have hpr : (m1.placeUnit id newX newY).2 = true := by
          rw [placeUnit_snd]
          exact hcp1
        have heq : w.moveUnitToMap id newMapId newX newY =
            (⟨mapsUpdate (vacateCurrent w cur).maps newMapId
                (fun _ => (m1.placeUnit id newX newY).1),
              upSet (vacateCurrent w cur).unitPositions id
                ⟨newMapId, ⟨newX, newY, none⟩⟩⟩, true) := by
          simp only [World.moveUnitToMap, hcur, hfm, hcp, hm1, hpr]
          simp
        rw [heq]
        refine winv_after_place (vacateCurrent w cur)
          (by rw [vacate_unitPositions]; exact hknd)
          (by rw [vacate_names]; exact hmnd)
          newMapId m1 hm1 id hid ?_ ?_ newX newY none hcp1
        · intro e he _
          rw [vacate_unitPositions] at he
          exact hids e he
        · intro e he hne
          rw [vacate_unitPositions] at he
          exact trackedOk_vacate w id cur htrk e (hcons e he) hne
      · have hcp2 : newMap.canPlaceUnitAt newX newY = false := by
          revert hcp
          cases newMap.canPlaceUnitAt newX newY <;> simp
        simp only [World.moveUnitToMap, hcur, hfm, hcp2, Bool.false_eq_true,
          not_false_eq_true, if_true]
        exact ⟨hknd, hmnd, hids, hcons⟩

theorem winv_applyOp (w : World) (op : WOp) (h : WInv w)
    (hop : opSetId op ≠ some "") : WInv (applyOp w op) := by
  cases op with
  | addMap m => exact winv_addMap w m h
  | removeMap n => exact winv_removeMap w n h
  | setUnitPosition id mapId pos =>
    refine winv_setUnitPosition w id mapId pos h ?_
    intro hc
    apply hop
    rw [hc]
    rfl
  | removeUnit id => exact winv_removeUnit w id h
  | moveUnit id x y => exact winv_moveUnit w id x y h
  | moveUnitToMap id mapId x y => exact winv_moveUnitToMap w id mapId x y h
  | clear => exact winv_clear w

theorem winv_runOps (ops : List WOp) (w : World) (h : WInv w)
    (hops : ∀ op ∈ ops, opSetId op ≠ some "") : WInv (runOps w ops) := by
  induction ops generalizing w with
  | nil => exact h
  | cons op rest ih =>
    show WInv (runOps (applyOp w op) rest)
    exact ih (applyOp w op)
      (winv_applyOp w op h (hops op (List.mem_cons_self _ _)))
      (fun op2 hop2 => hops op2 (List.mem_cons_of_mem _ hop2))

/-- C1 (amended): starting from a fresh World, after any sequence of
World mutator calls in which every `setUnitPosition` uses a nonempty
entity id, every entity tracked in `unitPositions` refers to an existing
map whose resolved cell at the tracked position has that entity as its
occupant. (The empty-string id is excluded: it is falsy in the occupancy
check and can corrupt the invariant.) -/
theorem c1_consistency_invariant (ops : List WOp)
    (hops : ∀ op ∈ ops, opSetId op ≠ some "") :
    Consistent (runOps World.empty ops) :=
  (winv_runOps ops World.empty winv_empty hops).2.2.2

/-- C1 witness: a concrete mutation history ending in a consistent world. -/
theorem c1_witness :
    Consistent (runOps World.empty
      [WOp.addMap (mkMap 3 3 "A" ⟨none, none, none⟩),
       WOp.addMap (mkMap 2 2 "B" ⟨none, none, none⟩),
       WOp.setUnitPosition "u1" "A" ⟨0, 0, none⟩,
       WOp.setUnitPosition "u2" "A" ⟨1, 1, none⟩,
       WOp.moveUnit "u1" 2 2,
       WOp.moveUnitToMap "u2" "B" 0 1,
       WOp.removeMap "B",
       WOp.setUnitPosition "u3" "A" ⟨1, 0, none⟩,
       WOp.removeUnit "u3"]) :=
  c1_consistency_invariant _ (by decide)

/-- C1 counterexample: with the empty-string entity id (falsy in the
occupancy check), a three-call history from the fresh world tracks `""`
at (0,0) of "A" while the cell's occupant is `"u"` — the claimed
invariant fails. -/
theorem c1_counterexample :
    ¬ Consistent (runOps World.empty
      [WOp.addMap (mkMap 3 3 "A" ⟨none, none, none⟩),
       WOp.setUnitPosition "" "A" ⟨0, 0, none⟩,
       WOp.setUnitPosition "u" "A" ⟨0, 0, none⟩]) := by
  intro h
  have hmem : (("" : String), (⟨"A", ⟨0, 0, none⟩⟩ : UnitPos)) ∈
      (runOps World.empty
        [WOp.addMap (mkMap 3 3 "A" ⟨none, none, none⟩),
         WOp.setUnitPosition "" "A" ⟨0, 0, none⟩,
         WOp.setUnitPosition "u" "A" ⟨0, 0, none⟩]).unitPositions := by
    decide
  obtain ⟨m, hm, c, hc, hocc⟩ := h _ hmem
  have hmv : m = ((((mkMap 3 3 "A" ⟨none, none, none⟩).placeUnit "" 0 0).1.removeUnitAt
      0 0).1.placeUnit "u" 0 0).1 := by
    have : some m = some ((((mkMap 3 3 "A" ⟨none, none, none⟩).placeUnit "" 0
        0).1.removeUnitAt 0 0).1.placeUnit "u" 0 0).1 := by
      rw [← hm]
      decide
    injection this
  rw [hmv] at hc
  have hcv : c = setOcc "u" (createDefaultCell (mkMapConfig ⟨none, none, none⟩)) := by
    have : some c = some (setOcc "u" (createDefaultCell (mkMapConfig ⟨none, none, none⟩))) := by
      rw [← hc]
      decide
    injection this
  rw [hcv] at hocc
  have : (("u" : String)) = "" := by
    injection hocc
  exact absurd this (by decide)

/-! ## C9: collision detection -/

theorem key_split (r : UnitPosition) (hr : ':' ∉ r.mapId.data) :
    splitOnChar ':' (collisionKey r) =
      [r.mapId.data, intToChars r.position.x ++ ',' :: intToChars r.position.y] := by
  unfold collisionKey
  rw [splitOnChar_append ':' _ _ (fun c hc hceq => hr (hceq ▸ hc))]
  rw [splitOnChar_nosep]
  intro c hc
  rcases List.mem_append.mp hc with hc | hc
  · exact (intToChars_not_special _ c hc).2.2.2.1
  · rcases List.mem_cons.mp hc with hc | hc
    · rw [hc]
      decide
    · exact (intToChars_not_special _ c hc).2.2.2.1

theorem coord_split (x y : Int) :
    splitOnChar ',' (intToChars x ++ ',' :: intToChars y) =
      [intToChars x, intToChars y] := by
  rw [splitOnChar_append ',' _ _ (fun c hc => (intToChars_not_special _ c hc).2.2.1)]
  rw [splitOnChar_nosep _ _ (fun c hc => (intToChars_not_special _ c hc).2.2.1)]

theorem collisionKey_inj (r1 r2 : UnitPosition) (h1 : ':' ∉ r1.mapId.data)
    (h2 : ':' ∉ r2.mapId.data) (h : collisionKey r1 = collisionKey r2) :
    r1.mapId = r2.mapId ∧ r1.position.x = r2.position.x ∧
      r1.position.y = r2.position.y := by
  have hs1 := key_split r1 h1
  have hs2 := key_split r2 h2
  rw [h, hs2] at hs1
  injection hs1 with hmap hrest
  injection hrest with hcoord
  have hmapid : r1.mapId = r2.mapId := by
    have h1e : String.mk r1.mapId.data = r1.mapId := rfl
    have h2e : String.mk r2.mapId.data = r2.mapId := rfl
    rw [← h1e, ← h2e, hmap]
  have hc1 := coord_split r1.position.x r1.position.y
  have hc2 := coord_split r2.position.x r2.position.y
  rw [hcoord] at hc2
  have hcc := hc1.symm.trans hc2
  injection hcc with hx hrest2
  injection hrest2 with hy
  exact ⟨hmapid, intToChars_inj _ _ hx, intToChars_inj _ _ hy⟩

theorem decodeSeenEntry_key (r : UnitPosition) (hr : ':' ∉ r.mapId.data)
    (l : List UnitPosition) (hlen : 1 < l.length) :
    decodeSeenEntry (collisionKey r, l) =
      some ⟨r.mapId, some r.position.x, some r.position.y, l⟩ := by
  have hcond : ¬(l.length ≤ 1) := by omega
  simp only [decodeSeenEntry, if_neg hcond, key_split r hr, coord_split,
    jsNumber_intToChars]

theorem keyRec_of_triple (g1 g2 : CollisionGroup)
    (h : tripleOf g1 = tripleOf g2) : keyRec g1 = keyRec g2 := by
  unfold tripleOf at h
  injection h with hm hrest
  injection hrest with hx hy
  unfold keyRec
  rw [hm, hx, hy]

theorem seenLookup_nil (k : List Char) : seenLookup [] k = none := rfl

theorem seenLookup_cons_pos (e : List Char × List UnitPosition)
    (acc : List (List Char × List UnitPosition)) (k : List Char) (h : e.1 = k) :
    seenLookup (e :: acc) k = some e.2 := by
  unfold seenLookup
  rw [List.find?_cons_of_pos _ (by simp [h])]
  rfl

theorem seenLookup_cons_neg (e : List Char × List UnitPosition)
    (acc : List (List Char × List UnitPosition)) (k : List Char) (h : e.1 ≠ k) :
    seenLookup (e :: acc) k = seenLookup acc k := by
  unfold seenLookup
  rw [List.find?_cons_of_neg _ (by simp [h])]

theorem seenLookup_insert (acc : List (List Char × List UnitPosition))
    (r : UnitPosition) (k : List Char) :
    seenLookup (insertSeen acc r) k =
      if k = collisionKey r then some ((seenLookup acc k).getD [] ++ [r])
      else seenLookup acc k := by
  induction acc with
  | nil =>
    unfold insertSeen
    by_cases hk : k = collisionKey r
    · rw [if_pos hk, seenLookup_cons_pos _ _ _ (by simp [hk]), seenLookup_nil]
      rfl
    · rw [if_neg hk, seenLookup_cons_neg _ _ _ (by simp; exact fun hc => hk hc.symm),
        seenLookup_nil]
  | cons e rest ih =>
    obtain ⟨k1, l1⟩ := e
    show seenLookup (if k1 = collisionKey r then (k1, l1 ++ [r]) :: rest
        else (k1, l1) :: insertSeen rest r) k = _
    by_cases he : k1 = collisionKey r
    · rw [if_pos he]
      by_cases hk : k = collisionKey r
      · rw [seenLookup_cons_pos (k1, l1 ++ [r]) rest k (he.trans hk.symm),
          if_pos hk, seenLookup_cons_pos (k1, l1) rest k (he.trans hk.symm)]
        rfl
      · rw [seenLookup_cons_neg (k1, l1 ++ [r]) rest k
            (fun hc => hk (hc.symm.trans he)),
          if_neg hk,
          seenLookup_cons_neg (k1, l1) rest k (fun hc => hk (hc.symm.trans he))]
    · rw [if_neg he]
      by_cases hek : k1 = k
      · rw [seenLookup_cons_pos (k1, l1) (insertSeen rest r) k hek,
          if_neg (fun hc => he (hek.trans hc)),
          seenLookup_cons_pos (k1, l1) rest k hek]
      · rw [seenLookup_cons_neg (k1, l1) (insertSeen rest r) k hek,
          seenLookup_cons_neg (k1, l1) rest k hek, ih]

theorem seenLookup_foldl_some (ps : List UnitPosition)
    (acc : List (List Char × List UnitPosition)) (k : List Char)
    (l : List UnitPosition) (h : seenLookup acc k = some l) :
    seenLookup (List.foldl insertSeen acc ps) k =
      some (l ++ ps.filter (fun r => collisionKey r = k)) := by
  induction ps generalizing acc l with
  | nil => simpa using h
  | cons r rest ih =>
    show seenLookup (List.foldl insertSeen (insertSeen acc r) rest) k = _
    by_cases hk : k = collisionKey r
    · have hacc : seenLookup (insertSeen acc r) k = some (l ++ [r]) := by
        rw [seenLookup_insert, if_pos hk, h]
        rfl
      rw [ih (insertSeen acc r) (l ++ [r]) hacc]
      rw [List.filter_cons, if_pos (by simp [hk.symm])]
      simp
    · have hacc : seenLookup (insertSeen acc r) k = some l := by
        rw [seenLookup_insert, if_neg hk, h]
      rw [ih (insertSeen acc r) l hacc]
      rw [List.filter_cons, if_neg (by simp; intro hc; exact hk hc.symm)]

theorem seenLookup_foldl_none (ps : List UnitPosition)
    (acc : List (List Char × List UnitPosition)) (k : List Char)
    (h : seenLookup acc k = none) :
    seenLookup (List.foldl insertSeen acc ps) k =
      (if ps.filter (fun r => collisionKey r = k) = [] then none
       else some (ps.filter (fun r => collisionKey r = k))) := by
  induction ps generalizing acc with
  | nil => simpa using h
  | cons r rest ih =>
    show seenLookup (List.foldl insertSeen (insertSeen acc r) rest) k = _
    by_cases hk : k = collisionKey r
    · have hacc : seenLookup (insertSeen acc r) k = some [r] := by
        rw [seenLookup_insert, if_pos hk, h]
        rfl
      rw [seenLookup_foldl_some rest (insertSeen acc r) k [r] hacc,
        List.filter_cons_of_pos (by simp [hk]),
        if_neg (by simp)]
      rfl
    · have hacc : seenLookup (insertSeen acc r) k = none := by
        rw [seenLookup_insert, if_neg hk, h]
      rw [ih (insertSeen acc r) hacc,
        List.filter_cons_of_neg (by simp; exact fun hc => hk hc.symm)]

theorem buildSeen_lookup (ps : List UnitPosition) (k : List Char) :
    seenLookup (buildSeen ps) k =
      (if ps.filter (fun r => collisionKey r = k) = [] then none
       else some (ps.filter (fun r => collisionKey r = k))) :=
  seenLookup_foldl_none ps [] k rfl

theorem insertSeen_keys (acc : List (List Char × List UnitPosition))
    (r : UnitPosition) :
    (insertSeen acc r).map Prod.fst =
      if collisionKey r ∈ acc.map Prod.fst then acc.map Prod.fst
      else acc.map Prod.fst ++ [collisionKey r] := by
  induction acc with
  | nil => simp [insertSeen]
  | cons e rest ih =>
    unfold insertSeen
    by_cases he : e.1 = collisionKey r
    · rw [if_pos he]
      rw [if_pos (by simp only [List.map, List.mem_cons]; exact Or.inl he.symm)]
      simp [he]
    · rw [if_neg he]
      simp only [List.map, List.mem_cons]
      rw [ih]
      by_cases hmem : collisionKey r ∈ rest.map Prod.fst
      · rw [if_pos hmem, if_pos (Or.inr hmem)]
      · rw [if_neg hmem, if_neg (by
          intro hc
          rcases hc with hc | hc
          · exact he hc.symm
          · exact hmem hc)]
        simp

theorem insertSeen_keys_nodup (acc : List (List Char × List UnitPosition))
    (r : UnitPosition) (h : (acc.map Prod.fst).Nodup) :
    ((insertSeen acc r).map Prod.fst).Nodup := by
  rw [insertSeen_keys]
  by_cases hmem : collisionKey r ∈ acc.map Prod.fst
  · rw [if_pos hmem]
    exact h
  · rw [if_neg hmem]
    rw [List.nodup_append]
    exact ⟨h, List.nodup_singleton _, by simpa using hmem⟩

theorem buildSeen_keys_nodup (ps : List UnitPosition) :
    ((buildSeen ps).map Prod.fst).Nodup := by
  have hgen : ∀ acc : List (List Char × List UnitPosition),
      (acc.map Prod.fst).Nodup →
      ((List.foldl insertSeen acc ps).map Prod.fst).Nodup := by
    induction ps with
    | nil =>
      intro acc h
      exact h
    | cons r rest ih =>
      intro acc h
      exact ih (insertSeen acc r) (insertSeen_keys_nodup acc r h)
  exact hgen [] (by simp)

theorem mem_seenLookup (acc : List (List Char × List UnitPosition))
    (e : List Char × List UnitPosition) (hnd : (acc.map Prod.fst).Nodup)
    (h : e ∈ acc) : seenLookup acc e.1 = some e.2 := by
  induction acc with
  | nil => exact absurd h (by simp)
  | cons e2 rest ih =>
    simp only [List.map, List.nodup_cons] at hnd
    rcases List.mem_cons.mp h with h | h
    · rw [h]
      exact seenLookup_cons_pos _ _ _ rfl
    · rw [seenLookup_cons_neg _ _ _ (by
        intro hc
        apply hnd.1
        rw [hc]
        exact List.mem_map_of_mem Prod.fst h)]
      exact ih hnd.2 h

theorem seenLookup_mem (acc : List (List Char × List UnitPosition))
    (k : List Char) (l : List UnitPosition) (h : seenLookup acc k = some l) :
    (k, l) ∈ acc := by
  unfold seenLookup at h
  cases hf : acc.find? (fun e => e.1 = k) with
  | none =>
    rw [hf] at h
    exact absurd h (by simp)
  | some e =>
    rw [hf] at h
    injection h with heq
    have hmem := List.mem_of_find?_eq_some hf
    have hk : e.1 = k := by
      have := List.find?_some hf
      simpa using this
    have : e = (k, l) := by
      cases e
      simp_all
    rw [← this]
    exact hmem

theorem collisionKey_congr (r1 r2 : UnitPosition) (hm : r1.mapId = r2.mapId)
    (hx : r1.position.x = r2.position.x) (hy : r1.position.y = r2.position.y) :
    collisionKey r1 = collisionKey r2 := by
  unfold collisionKey
  rw [hm, hx, hy]

theorem key_filter_eq (ps : List UnitPosition)
    (hcol : ∀ r ∈ ps, ':' ∉ r.mapId.data)
    (r : UnitPosition) (hr : ':' ∉ r.mapId.data) :
    ps.filter (fun r2 => collisionKey r2 = collisionKey r) =
      ps.filter (atCoord r.mapId r.position.x r.position.y) := by
  apply List.filter_congr
  intro r2 hr2
  unfold atCoord
  by_cases hsame : collisionKey r2 = collisionKey r
  · obtain ⟨hm, hx, hy⟩ := collisionKey_inj r2 r (hcol r2 hr2) hr hsame
    simp [hsame, hm, hx, hy]
  · by_cases hm : r2.mapId = r.mapId
    · by_cases hx : r2.position.x = r.position.x
      · by_cases hy : r2.position.y = r.position.y
        · exact absurd (collisionKey_congr r2 r hm hx hy) hsame
        · simp [hsame, hy]
      · simp [hsame, hx]
    · simp [hsame, hm]

theorem buildSeen_entry (ps : List UnitPosition)
    (e : List Char × List UnitPosition) (he : e ∈ buildSeen ps) :
    e.2 = ps.filter (fun r2 => collisionKey r2 = e.1) ∧
      ∃ r ∈ ps, collisionKey r = e.1 := by
  have hl := mem_seenLookup (buildSeen ps) e (buildSeen_keys_nodup ps) he
  rw [buildSeen_lookup] at hl
  by_cases hfil : ps.filter (fun r2 => collisionKey r2 = e.1) = []
  · rw [if_pos hfil] at hl
    exact absurd hl (by simp)
  · rw [if_neg hfil] at hl
    refine ⟨(Option.some.inj hl).symm, ?_⟩
    obtain ⟨r, hrmem⟩ := List.exists_mem_of_ne_nil _ hfil
    have hsplit := List.mem_filter.mp hrmem
    exact ⟨r, hsplit.1, by simpa using hsplit.2⟩

theorem decode_some_len (e : List Char × List UnitPosition) (g : CollisionGroup)
    (h : decodeSeenEntry e = some g) : 1 < e.2.length := by
  unfold decodeSeenEntry at h
  by_cases hlen : e.2.length ≤ 1
  · rw [if_pos hlen] at h
    exact absurd h (by simp)
  · omega

theorem findCollisions_mem (ps : List UnitPosition)
    (hcol : ∀ r ∈ ps, ':' ∉ r.mapId.data) (g : CollisionGroup)
    (hg : g ∈ findCollisions ps) :
    ∃ r, r ∈ ps ∧
      g = ⟨r.mapId, some r.position.x, some r.position.y,
        ps.filter (fun r2 => collisionKey r2 = collisionKey r)⟩ ∧
      1 < (ps.filter (fun r2 => collisionKey r2 = collisionKey r)).length := by
  unfold findCollisions at hg
  obtain ⟨e, he, hdec⟩ := List.mem_filterMap.mp hg
  obtain ⟨hfil, r, hrps, hkey⟩ := buildSeen_entry ps e he
  have hlen : 1 < e.2.length := decode_some_len e g hdec
  have hdec2 : decodeSeenEntry (collisionKey r, e.2) = some g := by
    rw [hkey]
    exact hdec
  rw [decodeSeenEntry_key r (hcol r hrps) e.2 hlen] at hdec2
  have hge : g = ⟨r.mapId, some r.position.x, some r.position.y, e.2⟩ :=
    (Option.some.inj hdec2).symm
  refine ⟨r, hrps, ?_, ?_⟩
  · rw [hge, hfil, hkey]
  · rw [hkey, ← hfil]
    exact hlen

theorem findCollisions_complete (ps : List UnitPosition)
    (hcol : ∀ r ∈ ps, ':' ∉ r.mapId.data) (m : String) (x y : Int)
    (h : 1 < (ps.filter (atCoord m x y)).length) :
    ∃ g ∈ findCollisions ps, g.mapId = m ∧ g.x = some x ∧ g.y = some y := by
  have hne : ps.filter (atCoord m x y) ≠ [] := by
    intro hc
    rw [hc] at h
    exact absurd h (by simp)
  obtain ⟨r, hrmem⟩ := List.exists_mem_of_ne_nil _ hne
  have hsplit := List.mem_filter.mp hrmem
  have hrps : r ∈ ps := hsplit.1
  have hat := hsplit.2
  simp only [atCoord, Bool.and_eq_true, decide_eq_true_eq] at hat
  obtain ⟨⟨hm, hx⟩, hy⟩ := hat
  have hfeq : ps.filter (fun r2 => collisionKey r2 = collisionKey r) =
      ps.filter (atCoord m x y) := by
    rw [key_filter_eq ps hcol r (hcol r hrps), hm, hx, hy]
  have hlen2 : 1 < (ps.filter (fun r2 => collisionKey r2 = collisionKey r)).length := by
    rw [hfeq]
    exact h
  have hlk : seenLookup (buildSeen ps) (collisionKey r) =
      some (ps.filter (fun r2 => collisionKey r2 = collisionKey r)) := by
    rw [buildSeen_lookup]
    rw [if_neg (by
      intro hc
      rw [hc] at hlen2
      exact absurd hlen2 (by simp))]
  have hmem := seenLookup_mem _ _ _ hlk
  refine ⟨⟨r.mapId, some r.position.x, some r.position.y,
    ps.filter (fun r2 => collisionKey r2 = collisionKey r)⟩, ?_, hm, by rw [hx], by rw [hy]⟩
  unfold findCollisions
  exact List.mem_filterMap.mpr ⟨_, hmem, decodeSeenEntry_key r (hcol r hrps) _ hlen2⟩

theorem decode_keyRec (ps : List UnitPosition)
    (hcol : ∀ r ∈ ps, ':' ∉ r.mapId.data)
    (e : List Char × List UnitPosition) (he : e ∈ buildSeen ps)
    (g : CollisionGroup) (hdec : decodeSeenEntry e = some g) :
    keyRec g = some e.1 := by
  obtain ⟨hfil, r, hrps, hkey⟩ := buildSeen_entry ps e he
  have hlen := decode_some_len e g hdec
  have hdec2 : decodeSeenEntry (collisionKey r, e.2) = some g := by
    rw [hkey]
    exact hdec
  rw [decodeSeenEntry_key r (hcol r hrps) e.2 hlen] at hdec2
  have hge : g = ⟨r.mapId, some r.position.x, some r.position.y, e.2⟩ :=
    (Option.some.inj hdec2).symm
  rw [hge]
  show some (collisionKey r) = some e.1
  rw [hkey]

theorem nodup_triples_aux (acc : List (List Char × List UnitPosition)) :
    (acc.map Prod.fst).Nodup →
    (∀ e ∈ acc, ∀ g, decodeSeenEntry e = some g → keyRec g = some e.1) →
    ((acc.filterMap decodeSeenEntry).map tripleOf).Nodup := by
  induction acc with
  | nil =>
    intro _ _
    simp
  | cons e rest ih =>
    intro hnd hk
    simp only [List.map, List.nodup_cons] at hnd
    cases hdec : decodeSeenEntry e with
    | none =>
      simp only [List.filterMap_cons, hdec]
      exact ih hnd.2 (fun e2 he2 => hk e2 (List.mem_cons_of_mem e he2))
    | some g =>
      simp only [List.filterMap_cons, hdec, List.map_cons, List.nodup_cons]
      refine ⟨?_, ih hnd.2 (fun e2 he2 => hk e2 (List.mem_cons_of_mem e he2))⟩
      intro hmem
      obtain ⟨g2, hg2mem, htrip⟩ := List.mem_map.mp hmem
      obtain ⟨e2, he2, hdec2⟩ := List.mem_filterMap.mp hg2mem
      have hk1 := hk e (List.mem_cons_self e rest) g hdec
      have hk2 := hk e2 (List.mem_cons_of_mem e he2) g2 hdec2
      have hkr := keyRec_of_triple g2 g htrip
      rw [hk1, hk2] at hkr
      have he21 : e2.1 = e.1 := Option.some.inj hkr
      apply hnd.1
      rw [← he21]
      exact List.mem_map_of_mem Prod.fst he2

/-- C9: `findCollisions` groups records by the `` `${mapId}:${x},${y}` ``
key and reports exactly the keys shared by more than one record. For
inputs whose map ids contain no ':' (so the key decoding is faithful),
every reported group carries numeric coordinates, more than one record,
and exactly the input records at that map and coordinate; a map/coordinate
triple is reported iff more than one record sits there; and no triple is
reported twice. -/
theorem c9_findCollisions_groups (ps : List UnitPosition)
    (hcol : ∀ r ∈ ps, ':' ∉ r.mapId.data) :
    (∀ g ∈ findCollisions ps, ∃ xv yv, g.x = some xv ∧ g.y = some yv ∧
      1 < g.positions.length ∧
      g.positions = ps.filter (atCoord g.mapId xv yv)) ∧
    (∀ m x y, (∃ g ∈ findCollisions ps, g.mapId = m ∧ g.x = some x ∧ g.y = some y) ↔
      1 < (ps.filter (atCoord m x y)).length) ∧
    ((findCollisions ps).map tripleOf).Nodup := by
  refine ⟨?_, ?_, ?_⟩
  · intro g hg
    obtain ⟨r, hrps, hge, hlen⟩ := findCollisions_mem ps hcol g hg
    refine ⟨r.position.x, r.position.y, ?_, ?_, ?_, ?_⟩
    · rw [hge]
    · rw [hge]
    · rw [hge]
      exact hlen
    · rw [hge]
      show ps.filter (fun r2 => collisionKey r2 = collisionKey r) =
        ps.filter (atCoord r.mapId r.position.x r.position.y)
      exact key_filter_eq ps hcol r (hcol r hrps)
  · intro m x y
    constructor
    · rintro ⟨g, hg, hm, hx, hy⟩
      obtain ⟨r, hrps, hge, hlen⟩ := findCollisions_mem ps hcol g hg
      rw [hge] at hm hx hy
      have hm2 : r.mapId = m := hm
      have hx2 : some r.position.x = some x := hx
      have hy2 : some r.position.y = some y := hy
      rw [← hm2, ← Option.some.inj hx2, ← Option.some.inj hy2]
      rw [← key_filter_eq ps hcol r (hcol r hrps)]
      exact hlen
    · exact findCollisions_complete ps hcol m x y
  · exact nodup_triples_aux (buildSeen ps) (buildSeen_keys_nodup ps)
      (decode_keyRec ps hcol)

/-- C9 witness: three colon-free records, two of them stacked on map `A`
at `(1, 2)`; `findCollisions` reports a group for exactly that triple. -/
theorem c9_witness :
    ∃ g ∈ findCollisions
      [⟨"u1", "A", ⟨1, 2, none⟩⟩, ⟨"u2", "A", ⟨1, 2, none⟩⟩,
        ⟨"u3", "A", ⟨3, 3, none⟩⟩],
      g.mapId = "A" ∧ g.x = some 1 ∧ g.y = some 2 :=
  ((c9_findCollisions_groups
      [⟨"u1", "A", ⟨1, 2, none⟩⟩, ⟨"u2", "A", ⟨1, 2, none⟩⟩,
        ⟨"u3", "A", ⟨3, 3, none⟩⟩]
      (by decide)).2.1 "A" 1 2).mpr (by decide)

/-- C9 counterexample: the key `` `${mapId}:${x},${y}` `` is decoded by
splitting on ':' and keeping the first two segments, so a map id
containing ':' corrupts the decode: two records stacked at `(1, 2)` of
map `"A:B"` produce the key `"A:B:1,2"`, whose second segment `"B"`
has no `x,y` comma split, and the stack is silently dropped instead of
being reported as a collision group. -/
theorem c9_counterexample :
    findCollisions [⟨"u1", "A:B", ⟨1, 2, none⟩⟩, ⟨"u2", "A:B", ⟨1, 2, none⟩⟩] = [] := by
  have h1 : intToChars (1 : Int) = ['1'] := by
    unfold intToChars
    rw [if_neg (by decide)]
    show natToChars 1 = ['1']
    unfold natToChars
    rw [dif_pos (by decide)]
    decide
  have h2 : intToChars (2 : Int) = ['2'] := by
    unfold intToChars
    rw [if_neg (by decide)]
    show natToChars 2 = ['2']
    unfold natToChars
    rw [dif_pos (by decide)]
    decide
  have hk : collisionKey ⟨"u1", "A:B", ⟨1, 2, none⟩⟩ =
      "A:B".data ++ ':' :: (['1'] ++ ',' :: ['2']) := by
    show "A:B".data ++ ':' :: (intToChars 1 ++ ',' :: intToChars 2) = _
    rw [h1, h2]
  have hk2 : collisionKey ⟨"u2", "A:B", ⟨1, 2, none⟩⟩ =
      "A:B".data ++ ':' :: (['1'] ++ ',' :: ['2']) := by
    show "A:B".data ++ ':' :: (intToChars 1 ++ ',' :: intToChars 2) = _
    rw [h1, h2]
  have hstep : findCollisions
      [⟨"u1", "A:B", ⟨1, 2, none⟩⟩, ⟨"u2", "A:B", ⟨1, 2, none⟩⟩] =
      List.filterMap decodeSeenEntry
        [(collisionKey ⟨"u1", "A:B", ⟨1, 2, none⟩⟩,
          [⟨"u1", "A:B", ⟨1, 2, none⟩⟩, ⟨"u2", "A:B", ⟨1, 2, none⟩⟩])] := by
    unfold findCollisions buildSeen
    show List.filterMap decodeSeenEntry
      (insertSeen (insertSeen [] ⟨"u1", "A:B", ⟨1, 2, none⟩⟩)
        ⟨"u2", "A:B", ⟨1, 2, none⟩⟩) = _
    show List.filterMap decodeSeenEntry
      (insertSeen [(collisionKey ⟨"u1", "A:B", ⟨1, 2, none⟩⟩,
        [⟨"u1", "A:B", ⟨1, 2, none⟩⟩])] ⟨"u2", "A:B", ⟨1, 2, none⟩⟩) = _
    unfold insertSeen
    rw [if_pos (hk.trans hk2.symm)]
    rfl
  rw [hstep, hk]
  decide
